import Mathlib

/-!
# Reviewer assignment service

A shallow embedding of `internal/domain/models.go`, `internal/repository/repository.go`
and `internal/service/service.go`, followed by the properties of the reviewer
selection and of the pull-request lifecycle operations.

Conventions of the embedding

* A Go `string` is a `String`, a Go slice is a `List`, a `*time.Time` is an
  `Option Time`, and the Go `error` interface is an `Option GoError` (`none` is `nil`).
* A Go function returning `(T, error)` returns a pair: Go lets a callee return a
  non-zero value together with a non-nil error, and the service forwards such pairs.
* The repositories are interfaces in the source. Here they are records of functions
  over an arbitrary store state `σ`; every call receives the store state and returns
  the next one, and the service records each repository call it makes in a log.
* A run-time panic (slice bound or index out of range) is `none`.
* Go slices share their elements. The one place where the service assigns to an element
  of a slice that a repository handed out is `ReassignReviewer`; what that assignment does
  to the store is the field `ReviewerSlotWrite` of the repository.
-/

namespace Backend

/-! ## internal/domain/models.go -/

namespace domain

/-- The Go type `time.Time`, as an instant counted on some fixed scale. -/
abbrev Time := Nat

structure User where
  UserID : String
  Username : String
  TeamName : String
  IsActive : Bool
deriving DecidableEq, Repr

structure Team where
  TeamName : String
  Members : List User
deriving DecidableEq, Repr

/-- The Go type `type PullRequestStatus string`. -/
abbrev PullRequestStatus := String

def StatusOpen : PullRequestStatus := "OPEN"

def StatusMerged : PullRequestStatus := "MERGED"

structure PullRequest where
  PullRequestID : String
  PullRequestName : String
  AuthorID : String
  Status : PullRequestStatus
  AssignedReviewers : List String
  CreatedAt : Option Time
  MergedAt : Option Time
deriving DecidableEq, Repr

structure PullRequestShort where
  PullRequestID : String
  PullRequestName : String
  AuthorID : String
  Status : PullRequestStatus
deriving DecidableEq, Repr

/-- The Go type `type ErrorCode string`. -/
abbrev ErrorCode := String

def ErrTeamExists : ErrorCode := "TEAM_EXISTS"

def ErrPRExists : ErrorCode := "PR_EXISTS"

def ErrNotFound : ErrorCode := "NOT_FOUND"

def ErrPRMerged : ErrorCode := "PR_MERGED"

def ErrNotAssigned : ErrorCode := "NOT_ASSIGNED"

def ErrNoCandidate : ErrorCode := "NO_CANDIDATE"

structure BusinessError where
  Code : ErrorCode
  Message : String
deriving DecidableEq, Repr

/-- A non-nil value of the Go interface `error`: either a `*domain.BusinessError`
or an error of any other dynamic type, of which only the text is kept. -/
inductive GoError where
  | business (e : BusinessError)
  | other (text : String)
deriving DecidableEq, Repr

/-- The zero value `domain.PullRequest{}`. -/
def PullRequest.zero : PullRequest :=
  { PullRequestID := "", PullRequestName := "", AuthorID := "", Status := "",
    AssignedReviewers := [], CreatedAt := none, MergedAt := none }

end domain

open domain

/-! ## The random source

`rand.Rand.Shuffle(n, swap)` belongs to the Go standard library. It is a Fisher-Yates
shuffle: `for i := n - 1; i > 0; i-- { j := r.Intn(i + 1); swap(i, j) }`. One outcome of
the random source is therefore the number it draws at each index `i`, a number from `0`
to `i`; the slice is touched by the calls of the `swap` closure only. -/

abbrev RandSource := (i : Nat) → Fin (i + 1)

/-- The random source that draws `i` at every index `i`, so that no call of the swap
closure moves anything. -/
def RandSource.id : RandSource := fun i => Fin.last i

/-- The random source that draws `0` at every index. -/
def RandSource.zero : RandSource := fun _ => 0

/-- The draws that a shuffle of `n` elements uses: one for each index below `n`. -/
abbrev Draws (n : Nat) := (i : Fin n) → Fin (i.val + 1)

/-- The random source that draws as `d` says at the indices below `n`, and `0` at every
other index. -/
def RandSource.ofDraws {n : Nat} (d : Draws n) : RandSource :=
  fun i => if h : i < n then d ⟨i, h⟩ else 0

/-- The closure handed to `Shuffle` in `selectRandomReviewers`:
`candidates[i], candidates[j] = candidates[j], candidates[i]`; `none` when an index
is out of range. -/
def swapClosure (candidates : List String) (i j : Nat) : Option (List String) :=
  match candidates[i]?, candidates[j]? with
  | some a, some b => some ((candidates.set i b).set j a)
  | _, _ => none

/-- A run of calls of the swap closure, in order. -/
def runSwaps : List String → List (Nat × Nat) → Option (List String)
  | candidates, [] => some candidates
  | candidates, (i, j) :: rest =>
    match swapClosure candidates i j with
    | some c => runSwaps c rest
    | none => none

/-- The calls `swap(i, j)` that the loop of `rand.Shuffle` makes from index `i` down to
index 1, with `j` the number drawn at that index. -/
def shuffleCalls (random : RandSource) : Nat → List (Nat × Nat)
  | 0 => []
  | i + 1 => (i + 1, (random (i + 1)).val) :: shuffleCalls random i

/-- The slice after `s.random.Shuffle(len(candidates), swap)`, with `swap` the closure of
`selectRandomReviewers`. -/
def Shuffle (random : RandSource) (candidates : List String) : Option (List String) :=
  runSwaps candidates (shuffleCalls random (candidates.length - 1))

/-- The list whose slot `i` holds what slot `p i` of the candidates holds: the candidates
rearranged by a permutation of the slots. -/
def rearrange (candidates : List String) (p : Equiv.Perm (Fin candidates.length)) :
    List String :=
  List.ofFn (fun i : Fin candidates.length => candidates.get (p i))

/-! ## internal/service/service.go : selectRandomReviewers -/

/-- The method `PRServiceImpl.selectRandomReviewers`. `count` is a Go `int`; the
slice expression `candidates[:numToSelect]` panics when `numToSelect` is negative
(it never exceeds the length). -/
def selectRandomReviewers (random : RandSource) (candidates : List String) (count : Int) :
    Option (List String) :=
  if candidates.length = 0 then
    some []
  else
    match Shuffle random candidates with
    | none => none
    | some shuffled =>
      let numToSelect : Int :=
        if (shuffled.length : Int) < count then (shuffled.length : Int) else count
      if numToSelect < 0 then none else some (shuffled.take numToSelect.toNat)

/-! ## internal/repository/repository.go -/

namespace repository

/-- The interface `TeamRepository` over a store state `σ`. -/
structure TeamRepository (σ : Type) where
  CreateOrUpdateTeam : σ → Team → (Team × Option GoError) × σ
  GetTeamByName : σ → String → (Team × Option GoError) × σ
  GetUserByID : σ → String → (User × Option GoError) × σ
  SetUserIsActive : σ → String → Bool → (User × Option GoError) × σ

/-- The interface `PullRequestRepository` over a store state `σ`. -/
structure PullRequestRepository (σ : Type) where
  CreatePullRequest : σ → PullRequest → (PullRequest × Option GoError) × σ
  GetPullRequestByID : σ → String → (PullRequest × Option GoError) × σ
  UpdatePullRequest : σ → PullRequest → (PullRequest × Option GoError) × σ
  GetPRsByReviewerID : σ → String → (List PullRequestShort × Option GoError) × σ
  /-- No method of the Go interface: what the assignment `pr.AssignedReviewers[i] = id`,
  made by the caller on the slice of the pull request that `GetPullRequestByID(prID)`
  handed out, does to the store. A store that hands out a fresh slice at every read, as the
  PostgreSQL repository does, is left as it is; a store that hands out its own slice sees
  the assignment. -/
  ReviewerSlotWrite : σ → String → Nat → String → σ := fun st _ _ _ => st

/-- One call of a repository method, with its arguments. -/
inductive Call where
  | CreateOrUpdateTeam (team : Team)
  | GetTeamByName (teamName : String)
  | GetUserByID (userID : String)
  | SetUserIsActive (userID : String) (isActive : Bool)
  | CreatePullRequest (pr : PullRequest)
  | GetPullRequestByID (prID : String)
  | UpdatePullRequest (pr : PullRequest)
  | GetPRsByReviewerID (userID : String)
deriving DecidableEq, Repr

/-- Whether the call is a call of `UpdatePullRequest`. -/
def Call.isUpdate : Call → Bool
  | Call.UpdatePullRequest _ => true
  | _ => false

/-- Whether the call is a call of `CreatePullRequest`. -/
def Call.isCreate : Call → Bool
  | Call.CreatePullRequest _ => true
  | _ => false

/-- Whether the call goes to the team repository. -/
def Call.isTeamCall : Call → Bool
  | Call.CreateOrUpdateTeam _ => true
  | Call.GetTeamByName _ => true
  | Call.GetUserByID _ => true
  | Call.SetUserIsActive _ _ => true
  | _ => false

end repository

open repository

/-! ## internal/service/service.go -/

namespace service

/-- The struct `PRServiceImpl`. The field `random` is the outcome of the random
source for the one `Shuffle` call that an operation makes. -/
structure PRServiceImpl (σ : Type) where
  prRepo : PullRequestRepository σ
  teamRepo : TeamRepository σ
  random : RandSource

/-- What one service operation does: the values it returns (`ret`, `err`), the store
state it leaves, and the repository calls it made, in order. -/
structure Run (σ α : Type) where
  ret : α
  err : Option GoError
  store : σ
  calls : List Call
deriving DecidableEq

/-- The candidate loop of `CreateAndAssignReviewers` (service.go, lines 70-75). -/
def createCandidates (members : List User) (authorID : String) : List String :=
  (members.filter (fun member => member.IsActive && member.UserID != authorID)).map
    (fun member => member.UserID)

/-- The method `PRServiceImpl.CreateAndAssignReviewers`; `now` is what
`time.Now().UTC()` returns. -/
def CreateAndAssignReviewers {σ : Type} (s : PRServiceImpl σ) (now : Time) (st : σ)
    (prID prName authorID : String) : Option (Run σ PullRequest) :=
  match s.teamRepo.GetUserByID st authorID with
  | ((_, some err), st1) =>
    some ⟨PullRequest.zero, some err, st1, [Call.GetUserByID authorID]⟩
  | ((author, none), st1) =>
    match s.teamRepo.GetTeamByName st1 author.TeamName with
    | ((_, some err), st2) =>
      some ⟨PullRequest.zero, some err, st2,
        [Call.GetUserByID authorID, Call.GetTeamByName author.TeamName]⟩
    | ((team, none), st2) =>
      let candidates := createCandidates team.Members authorID
      match selectRandomReviewers s.random candidates 2 with
      | none => none
      | some reviewers =>
        let newPR : PullRequest :=
          { PullRequestID := prID, PullRequestName := prName, AuthorID := authorID,
            Status := StatusOpen, AssignedReviewers := reviewers,
            CreatedAt := some now, MergedAt := none }
        match s.prRepo.CreatePullRequest st2 newPR with
        | ((pr, err), st3) =>
          some ⟨pr, err, st3,
            [Call.GetUserByID authorID, Call.GetTeamByName author.TeamName,
              Call.CreatePullRequest newPR]⟩

/-- The method `PRServiceImpl.MergePullRequest`; `now` is what `time.Now().UTC()`
returns. -/
def MergePullRequest {σ : Type} (s : PRServiceImpl σ) (now : Time) (st : σ)
    (prID : String) : Run σ PullRequest :=
  match s.prRepo.GetPullRequestByID st prID with
  | ((_, some err), st1) =>
    ⟨PullRequest.zero, some err, st1, [Call.GetPullRequestByID prID]⟩
  | ((pr, none), st1) =>
    if pr.Status = StatusMerged then
      ⟨pr, none, st1, [Call.GetPullRequestByID prID]⟩
    else
      let merged : PullRequest := { pr with Status := StatusMerged, MergedAt := some now }
      match s.prRepo.UpdatePullRequest st1 merged with
      | ((updated, err), st2) =>
        ⟨updated, err, st2, [Call.GetPullRequestByID prID, Call.UpdatePullRequest merged]⟩

/-- The search loop of `ReassignReviewer` (service.go, lines 122-128), started at
index `i`: the index of the first element equal to `oldUserID`, or `-1`. -/
def oldReviewerIndexFrom (oldUserID : String) : List String → Nat → Int
  | [], _ => -1
  | assignedID :: rest, i =>
    if assignedID = oldUserID then (i : Int) else oldReviewerIndexFrom oldUserID rest (i + 1)

/-- The map `assignedSet` of `ReassignReviewer` (service.go, lines 145-149); a key
that was never stored reads as `false`. -/
def assignedSet (pr : PullRequest) : String → Bool :=
  Function.update
    (pr.AssignedReviewers.foldl (fun m id => Function.update m id true) (fun _ => false))
    pr.AuthorID true

/-- The candidate loop of `ReassignReviewer` (service.go, lines 151-156). -/
def reassignCandidates (members : List User) (pr : PullRequest) : List String :=
  (members.filter (fun member => member.IsActive && !assignedSet pr member.UserID)).map
    (fun member => member.UserID)

/-- The indexed assignment `reviewers[index] = id`, which panics when the index is out of
range. -/
def assignAt (reviewers : List String) (index : Int) (id : String) : Option (List String) :=
  if 0 ≤ index ∧ index < (reviewers.length : Int) then some (reviewers.set index.toNat id)
  else none

def errMerged : GoError :=
  GoError.business ⟨ErrPRMerged, "cannot reassign on merged PR"⟩

def errNotAssigned : GoError :=
  GoError.business ⟨ErrNotAssigned, "reviewer is not assigned to this PR"⟩

def errNoCandidate : GoError :=
  GoError.business ⟨ErrNoCandidate, "no active replacement candidate in team"⟩

/-- The method `PRServiceImpl.ReassignReviewer`. The assignment
`pr.AssignedReviewers[oldReviewerIndex] = newUserID` is made in place, before the store's
update is called: `written` is the store as that assignment leaves it. -/
def ReassignReviewer {σ : Type} (s : PRServiceImpl σ) (st : σ) (prID oldUserID : String) :
    Option (Run σ (PullRequest × String)) :=
  match s.prRepo.GetPullRequestByID st prID with
  | ((_, some err), st1) =>
    some ⟨(PullRequest.zero, ""), some err, st1, [Call.GetPullRequestByID prID]⟩
  | ((pr, none), st1) =>
    if pr.Status = StatusMerged then
      some ⟨(PullRequest.zero, ""), some errMerged, st1, [Call.GetPullRequestByID prID]⟩
    else
      let oldReviewerIndex := oldReviewerIndexFrom oldUserID pr.AssignedReviewers 0
      if oldReviewerIndex = -1 then
        some ⟨(PullRequest.zero, ""), some errNotAssigned, st1, [Call.GetPullRequestByID prID]⟩
      else
        match s.teamRepo.GetUserByID st1 oldUserID with
        | ((_, some err), st2) =>
          some ⟨(PullRequest.zero, ""), some err, st2,
            [Call.GetPullRequestByID prID, Call.GetUserByID oldUserID]⟩
        | ((oldReviewer, none), st2) =>
          match s.teamRepo.GetTeamByName st2 oldReviewer.TeamName with
          | ((_, some err), st3) =>
            some ⟨(PullRequest.zero, ""), some err, st3,
              [Call.GetPullRequestByID prID, Call.GetUserByID oldUserID,
                Call.GetTeamByName oldReviewer.TeamName]⟩
          | ((team, none), st3) =>
            let candidates := reassignCandidates team.Members pr
            if candidates.length = 0 then
              some ⟨(PullRequest.zero, ""), some errNoCandidate, st3,
                [Call.GetPullRequestByID prID, Call.GetUserByID oldUserID,
                  Call.GetTeamByName oldReviewer.TeamName]⟩
            else
              match selectRandomReviewers s.random candidates 1 with
              | none => none
              | some selected =>
                match selected[0]? with
                | none => none
                | some newUserID =>
                  match assignAt pr.AssignedReviewers oldReviewerIndex newUserID with
                  | none => none
                  | some reviewers =>
                    let changed : PullRequest := { pr with AssignedReviewers := reviewers }
                    let written := s.prRepo.ReviewerSlotWrite st3 prID oldReviewerIndex.toNat
                      newUserID
                    match s.prRepo.UpdatePullRequest written changed with
                    | ((_, some err), st4) =>
                      some ⟨(PullRequest.zero, ""), some err, st4,
                        [Call.GetPullRequestByID prID, Call.GetUserByID oldUserID,
                          Call.GetTeamByName oldReviewer.TeamName,
                          Call.UpdatePullRequest changed]⟩
                    | ((updatedPR, none), st4) =>
                      some ⟨(updatedPR, newUserID), none, st4,
                        [Call.GetPullRequestByID prID, Call.GetUserByID oldUserID,
                          Call.GetTeamByName oldReviewer.TeamName,
                          Call.UpdatePullRequest changed]⟩

/-- The struct `UserServiceImpl`. -/
structure UserServiceImpl (σ : Type) where
  teamRepo : TeamRepository σ
  prRepo : PullRequestRepository σ

/-- The method `UserServiceImpl.GetReviewPRsByUserID`. -/
def GetReviewPRsByUserID {σ : Type} (s : UserServiceImpl σ) (st : σ) (userID : String) :
    Run σ (List PullRequestShort) :=
  match s.teamRepo.GetUserByID st userID with
  | ((_, some err), st1) => ⟨[], some err, st1, [Call.GetUserByID userID]⟩
  | ((_, none), st1) =>
    match s.prRepo.GetPRsByReviewerID st1 userID with
    | ((prs, err), st2) =>
      ⟨prs, err, st2, [Call.GetUserByID userID, Call.GetPRsByReviewerID userID]⟩

/-- A pull-request store that keeps what update writes: a successful read returns the
pull request of the id asked for and leaves the store as it is, and a successful update
returns the pull request it was given, after which a read of that id returns it. -/
structure KeepsWrites {σ : Type} (repo : PullRequestRepository σ) : Prop where
  get_id : ∀ st prID pr st1,
    repo.GetPullRequestByID st prID = ((pr, none), st1) → pr.PullRequestID = prID
  get_pure : ∀ st prID pr st1,
    repo.GetPullRequestByID st prID = ((pr, none), st1) → st1 = st
  update_get : ∀ st pr updated st1,
    repo.UpdatePullRequest st pr = ((updated, none), st1) →
      updated = pr ∧ repo.GetPullRequestByID st1 pr.PullRequestID = ((pr, none), st1)

/-- The reviewer invariants of a pull request: the author is not among the assigned
reviewers, and no reviewer id occurs twice. -/
def ReviewersValid (pr : PullRequest) : Prop :=
  pr.AuthorID ∉ pr.AssignedReviewers ∧ pr.AssignedReviewers.Nodup

instance (pr : PullRequest) : Decidable (ReviewersValid pr) := by
  unfold ReviewersValid
  infer_instance

/-- The merge-time invariant of a pull request: the merge time is present exactly when
the status is MERGED. -/
def MergeStamped (pr : PullRequest) : Prop :=
  pr.MergedAt.isSome = true ↔ pr.Status = StatusMerged

instance (pr : PullRequest) : Decidable (MergeStamped pr) := by
  unfold MergeStamped
  infer_instance

/-- A pull-request store whose update hands back the pull request it was given when it
succeeds. -/
def UpdateEchoes {σ : Type} (repo : PullRequestRepository σ) : Prop :=
  ∀ st pr updated st1, repo.UpdatePullRequest st pr = ((updated, none), st1) → updated = pr

end service

open service

/-! ## internal/api/handler.go -/

namespace api

/-- The constant `http.StatusNotFound`. -/
def StatusNotFound : Nat := 404

/-- The constant `http.StatusConflict`. -/
def StatusConflict : Nat := 409

/-- The constant `http.StatusBadRequest`. -/
def StatusBadRequest : Nat := 400

/-- The constant `http.StatusInternalServerError`. -/
def StatusInternalServerError : Nat := 500

/-- The struct `domain.ErrorResponse`, with its one field `Error` flattened. -/
structure ErrorResponse where
  Code : ErrorCode
  Message : String
deriving DecidableEq, Repr

/-- What a handler writes as the body: a value handed to the JSON encoder, or the text
handed to `http.Error`. -/
inductive Body where
  | json (data : ErrorResponse)
  | plain (text : String)
deriving DecidableEq, Repr

/-- What a handler writes to the `http.ResponseWriter`. -/
structure Response where
  status : Nat
  contentType : String
  body : Body
deriving DecidableEq, Repr

/-- The function `sendJSONResponse`, for the one kind of data `handleServiceError`
sends. -/
def sendJSONResponse (status : Nat) (data : ErrorResponse) : Response :=
  { status := status, contentType := "application/json", body := Body.json data }

/-- The library function `http.Error(w, text, code)`. -/
def httpError (text : String) (code : Nat) : Response :=
  { status := code, contentType := "text/plain; charset=utf-8", body := Body.plain text }

/-- The function `handleServiceError`, for a non-nil `err`. -/
def handleServiceError (err : GoError) : Response :=
  match err with
  | GoError.business bErr =>
    let status : Nat :=
      if bErr.Code = ErrNotFound then StatusNotFound
      else if bErr.Code = ErrPRExists ∨ bErr.Code = ErrPRMerged ∨ bErr.Code = ErrNotAssigned ∨
          bErr.Code = ErrNoCandidate ∨ bErr.Code = ErrTeamExists then StatusConflict
      else StatusBadRequest
    sendJSONResponse status { Code := bErr.Code, Message := bErr.Message }
  | GoError.other _ => httpError "Internal Server Error" StatusInternalServerError

end api

open api

/-! ## An in-memory store

A small repository over lists, in the manner of the mocks of `service_test.go`; the
operations are run on it for concrete data. -/

namespace memory

structure MemStore where
  teams : List Team
  prs : List PullRequest
deriving DecidableEq, Repr

def notFound (text : String) : GoError := GoError.business ⟨ErrNotFound, text⟩

def zeroUser : User := { UserID := "", Username := "", TeamName := "", IsActive := false }

def zeroTeam : Team := { TeamName := "", Members := [] }

def getUserByID (st : MemStore) (userID : String) : (User × Option GoError) × MemStore :=
  match (st.teams.flatMap (fun t => t.Members)).find? (fun u => u.UserID == userID) with
  | some u => ((u, none), st)
  | none => ((zeroUser, some (notFound "user not found")), st)

def getTeamByName (st : MemStore) (teamName : String) : (Team × Option GoError) × MemStore :=
  match st.teams.find? (fun t => t.TeamName == teamName) with
  | some t => ((t, none), st)
  | none => ((zeroTeam, some (notFound "team not found")), st)

def createOrUpdateTeam (st : MemStore) (team : Team) : (Team × Option GoError) × MemStore :=
  ((team, none),
    { st with teams := team :: st.teams.filter (fun t => t.TeamName != team.TeamName) })

def setUserIsActive (st : MemStore) (userID : String) (isActive : Bool) :
    (User × Option GoError) × MemStore :=
  let st1 : MemStore :=
    { st with teams := st.teams.map (fun t =>
        { t with Members := t.Members.map (fun u =>
            if u.UserID == userID then { u with IsActive := isActive } else u) }) }
  getUserByID st1 userID

def createPullRequest (st : MemStore) (pr : PullRequest) :
    (PullRequest × Option GoError) × MemStore :=
  if st.prs.any (fun p => p.PullRequestID == pr.PullRequestID) then
    ((PullRequest.zero, some (GoError.business ⟨ErrPRExists, "pull request already exists"⟩)), st)
  else
    ((pr, none), { st with prs := st.prs ++ [pr] })

def getPullRequestByID (st : MemStore) (prID : String) :
    (PullRequest × Option GoError) × MemStore :=
  match st.prs.find? (fun p => p.PullRequestID == prID) with
  | some p => ((p, none), st)
  | none => ((PullRequest.zero, some (notFound "pull request not found")), st)

def updatePullRequest (st : MemStore) (pr : PullRequest) :
    (PullRequest × Option GoError) × MemStore :=
  if st.prs.any (fun p => p.PullRequestID == pr.PullRequestID) then
    ((pr, none),
      { st with prs := st.prs.map (fun p => if p.PullRequestID == pr.PullRequestID then pr else p) })
  else
    ((PullRequest.zero, some (notFound "pull request not found for update")), st)

def getPRsByReviewerID (st : MemStore) (userID : String) :
    (List PullRequestShort × Option GoError) × MemStore :=
  (((st.prs.filter (fun p => p.AssignedReviewers.contains userID)).map (fun p =>
      { PullRequestID := p.PullRequestID, PullRequestName := p.PullRequestName,
        AuthorID := p.AuthorID, Status := p.Status }), none), st)

def teamRepo : TeamRepository MemStore :=
  { CreateOrUpdateTeam := createOrUpdateTeam, GetTeamByName := getTeamByName,
    GetUserByID := getUserByID, SetUserIsActive := setUserIsActive }

def prRepo : PullRequestRepository MemStore :=
  { CreatePullRequest := createPullRequest, GetPullRequestByID := getPullRequestByID,
    UpdatePullRequest := updatePullRequest, GetPRsByReviewerID := getPRsByReviewerID }

/-- The service over the in-memory store, with a random source that moves nothing. -/
def svc : PRServiceImpl MemStore := { prRepo := prRepo, teamRepo := teamRepo, random := RandSource.id }

/-- The team of the scenarios of `service_test.go`: author `u1`, active `u2`, `u3`
and `u5`, inactive `u4`. -/
def backend : Team :=
  { TeamName := "backend",
    Members := [⟨"u1", "", "backend", true⟩, ⟨"u2", "", "backend", true⟩,
      ⟨"u3", "", "backend", true⟩, ⟨"u4", "", "backend", false⟩, ⟨"u5", "", "backend", true⟩] }

def openPR : PullRequest :=
  { PullRequestID := "pr-1", PullRequestName := "T", AuthorID := "u1", Status := StatusOpen,
    AssignedReviewers := ["u2", "u3"], CreatedAt := some 10, MergedAt := none }

def mergedPR : PullRequest :=
  { PullRequestID := "pr-2", PullRequestName := "M", AuthorID := "u1", Status := StatusMerged,
    AssignedReviewers := ["u2", "u3"], CreatedAt := some 11, MergedAt := some 12 }

/-- An open pull request to which every active member but the author is assigned. -/
def fullPR : PullRequest :=
  { PullRequestID := "pr-3", PullRequestName := "F", AuthorID := "u1", Status := StatusOpen,
    AssignedReviewers := ["u2", "u3", "u5"], CreatedAt := some 13, MergedAt := none }

def store0 : MemStore := { teams := [backend], prs := [openPR, mergedPR, fullPR] }

/-- The pull request `openPR` after `u2` has been replaced by `u5`. -/
def reassignedPR : PullRequest :=
  { PullRequestID := "pr-1", PullRequestName := "T", AuthorID := "u1", Status := StatusOpen,
    AssignedReviewers := ["u5", "u3"], CreatedAt := some 10, MergedAt := none }

def store1 : MemStore := { teams := [backend], prs := [reassignedPR, mergedPR, fullPR] }

/-- The pull request that `CreateAndAssignReviewers` builds for `pr-9` by author `u1` at
time 20, with a random source that moves nothing. -/
def createdPR : PullRequest :=
  { PullRequestID := "pr-9", PullRequestName := "N", AuthorID := "u1", Status := StatusOpen,
    AssignedReviewers := ["u2", "u3"], CreatedAt := some 20, MergedAt := none }

def store2 : MemStore := { teams := [backend], prs := [openPR, mergedPR, fullPR, createdPR] }

/-- A pull-request repository, in the manner of the mocks of `service_test.go`, whose
create and update fail and hand back the pull request they were given with the error. -/
def failingPRRepo : PullRequestRepository MemStore :=
  { CreatePullRequest := fun st pr => ((pr, some (GoError.other "create failed")), st),
    GetPullRequestByID := getPullRequestByID,
    UpdatePullRequest := fun st pr => ((pr, some (GoError.other "update failed")), st),
    GetPRsByReviewerID := getPRsByReviewerID }

/-- The service over the failing pull-request repository. -/
def failingSvc : PRServiceImpl MemStore :=
  { prRepo := failingPRRepo, teamRepo := teamRepo, random := RandSource.id }

/-- A pull-request repository, in the manner of the mocks of `service_test.go`, whose
read fails with a business error of a code that `models.go` does not name. -/
def busyPRRepo : PullRequestRepository MemStore :=
  { CreatePullRequest := createPullRequest,
    GetPullRequestByID := fun st _ =>
      ((PullRequest.zero, some (GoError.business ⟨"STORE_BUSY", "pull_requests is locked"⟩)), st),
    UpdatePullRequest := updatePullRequest,
    GetPRsByReviewerID := getPRsByReviewerID }

/-- The service over the busy pull-request repository. -/
def busySvc : PRServiceImpl MemStore :=
  { prRepo := busyPRRepo, teamRepo := teamRepo, random := RandSource.id }

/-- A pull-request repository, in the manner of the mocks of `service_test.go`, that hands
out its own reviewer slices, so that an assignment to a slot reaches the stored pull
request, and whose update fails with the empty pull request. -/
def sharingPRRepo : PullRequestRepository MemStore :=
  { CreatePullRequest := createPullRequest,
    GetPullRequestByID := getPullRequestByID,
    UpdatePullRequest := fun st _ => ((PullRequest.zero, some (GoError.other "update failed")), st),
    GetPRsByReviewerID := getPRsByReviewerID,
    ReviewerSlotWrite := fun st prID i id =>
      { st with prs := st.prs.map (fun p =>
          if p.PullRequestID == prID then
            { p with AssignedReviewers := p.AssignedReviewers.set i id }
          else p) } }

/-- The service over the sharing pull-request repository. -/
def sharingSvc : PRServiceImpl MemStore :=
  { prRepo := sharingPRRepo, teamRepo := teamRepo, random := RandSource.id }

/-- A team in which the id `u2` is carried by an active and by an inactive member. -/
def twinTeam : Team :=
  { TeamName := "twins",
    Members := [⟨"u1", "", "twins", true⟩, ⟨"u2", "", "twins", true⟩,
      ⟨"u2", "", "twins", false⟩] }

def twinStore : MemStore := { teams := [twinTeam], prs := [] }

/-- A pull-request repository, in the manner of the mocks of `service_test.go`, whose
update succeeds and hands back the pull request it was given with the merge time
cleared. -/
def clearingPRRepo : PullRequestRepository MemStore :=
  { CreatePullRequest := createPullRequest,
    GetPullRequestByID := getPullRequestByID,
    UpdatePullRequest := fun st pr => (({ pr with MergedAt := none }, none), st),
    GetPRsByReviewerID := getPRsByReviewerID }

/-- The service over the clearing pull-request repository. -/
def clearingSvc : PRServiceImpl MemStore :=
  { prRepo := clearingPRRepo, teamRepo := teamRepo, random := RandSource.id }

/-- The user service over the in-memory store. -/
def userSvc : UserServiceImpl MemStore := { teamRepo := teamRepo, prRepo := prRepo }

end memory

open memory

/-! ## Properties of the selection -/

theorem swapClosure_some (candidates : List String) (i j : Nat) (hi : i < candidates.length)
    (hj : j < candidates.length) :
    swapClosure candidates i j
      = some ((candidates.set i (candidates.get ⟨j, hj⟩)).set j (candidates.get ⟨i, hi⟩)) := by
  simp [swapClosure, List.getElem?_eq_getElem hi, List.getElem?_eq_getElem hj]

/-- One call of the swap closure applies a transposition. -/
theorem swapClosure_eq (candidates c1 : List String) (i j : Nat)
    (h : swapClosure candidates i j = some c1) :
    ∃ p : Equiv.Perm (Fin candidates.length), c1 = rearrange candidates p := by
  unfold swapClosure at h
  split at h
  · next a b ha hb =>
    obtain ⟨hi, rfl⟩ := List.getElem?_eq_some_iff.mp ha
    obtain ⟨hj, rfl⟩ := List.getElem?_eq_some_iff.mp hb
    simp only [Option.some.injEq] at h
    subst h
    refine ⟨Equiv.swap ⟨i, hi⟩ ⟨j, hj⟩, ?_⟩
    unfold rearrange
    apply List.ext_getElem
    · simp
    · intro k h1 h2
      simp only [List.length_set] at h1
      rw [List.getElem_ofFn, List.getElem_set, List.getElem_set]
      by_cases hjk : j = k
      · subst hjk
        simp
      · by_cases hik : i = k
        · subst hik
          have hne : (⟨i, hi⟩ : Fin candidates.length) ≠ ⟨j, hj⟩ := by
            intro he
            exact hjk (Fin.mk.inj_iff.mp he).symm
          simp [hjk]
        · have h3 : (⟨k, h1⟩ : Fin candidates.length) ≠ ⟨i, hi⟩ := by
            intro he
            exact hik (Fin.mk.inj_iff.mp he).symm
          have h4 : (⟨k, h1⟩ : Fin candidates.length) ≠ ⟨j, hj⟩ := by
            intro he
            exact hjk (Fin.mk.inj_iff.mp he).symm
          simp [hjk, hik, Equiv.swap_apply_of_ne_of_ne h3 h4]
  · exact Option.noConfusion h

theorem rearrange_perm (candidates : List String) (p : Equiv.Perm (Fin candidates.length)) :
    (rearrange candidates p).Perm candidates := by
  have h := Equiv.Perm.ofFn_comp_perm p candidates.get
  rw [List.ofFn_get] at h
  exact h

theorem swapClosure_perm (candidates c1 : List String) (i j : Nat)
    (h : swapClosure candidates i j = some c1) : c1.Perm candidates := by
  obtain ⟨p, rfl⟩ := swapClosure_eq candidates c1 i j h
  exact rearrange_perm candidates p

/-- A call `swap(i, j)` leaves in slot `i` what slot `j` held, and leaves every slot other
than `i` and `j` as it was. -/
theorem swapClosure_getElem? (candidates c1 : List String) (i j : Nat)
    (h : swapClosure candidates i j = some c1) :
    c1[i]? = candidates[j]? ∧ ∀ k, k ≠ i → k ≠ j → c1[k]? = candidates[k]? := by
  unfold swapClosure at h
  split at h
  · next a b ha hb =>
    obtain ⟨hi, rfl⟩ := List.getElem?_eq_some_iff.mp ha
    obtain ⟨hj, rfl⟩ := List.getElem?_eq_some_iff.mp hb
    simp only [Option.some.injEq] at h
    subst h
    constructor
    · by_cases hij : j = i
      · subst hij
        simp [List.getElem?_set, hi]
      · rw [List.getElem?_set_ne hij, List.getElem?_set_self hi, List.getElem?_eq_getElem hj]
    · intro k hki hkj
      rw [List.getElem?_set_ne (Ne.symm hkj), List.getElem?_set_ne (Ne.symm hki)]
  · exact Option.noConfusion h

/-- The loop of `rand.Shuffle` from index `i` down, on a slice longer than `i`: every call
of the swap closure is in range, the slice it leaves is a rearrangement of the one it
started from, and the slots above `i` are as they were. -/
theorem runSwaps_shuffleCalls (random : RandSource) :
    ∀ (i : Nat) (cs : List String), i < cs.length →
      ∃ l, runSwaps cs (shuffleCalls random i) = some l ∧ l.Perm cs ∧
        ∀ k, i < k → l[k]? = cs[k]? := by
  intro i
  induction i with
  | zero =>
    intro cs _
    exact ⟨cs, rfl, List.Perm.refl cs, fun _ _ => rfl⟩
  | succ i ih =>
    intro cs hi
    have hj : (random (i + 1)).val < cs.length := by
      have := (random (i + 1)).isLt
      omega
    have hswap := swapClosure_some cs (i + 1) (random (i + 1)).val hi hj
    have hperm := swapClosure_perm cs _ _ _ hswap
    have hget := swapClosure_getElem? cs _ _ _ hswap
    obtain ⟨l, hl, hlperm, hlget⟩ := ih _ (by rw [hperm.length_eq]; omega)
    refine ⟨l, ?_, hlperm.trans hperm, ?_⟩
    · simp only [shuffleCalls, runSwaps, hswap]
      exact hl
    · intro k hk
      rw [hlget k (by omega)]
      have := (random (i + 1)).isLt
      exact hget.2 k (by omega) (by omega)

/-- The shuffle never panics, and leaves a rearrangement of the candidates. -/
theorem Shuffle_some (random : RandSource) (candidates : List String) :
    ∃ l, Shuffle random candidates = some l ∧ l.Perm candidates := by
  unfold Shuffle
  by_cases h0 : candidates.length = 0
  · have hnil : candidates = [] := List.length_eq_zero.mp h0
    subst hnil
    exact ⟨[], rfl, List.Perm.refl _⟩
  · obtain ⟨l, hl, hperm, -⟩ :=
      runSwaps_shuffleCalls random (candidates.length - 1) candidates (by omega)
    exact ⟨l, hl, hperm⟩

theorem getElem?_inj_of_nodup (cs : List String) (hnd : cs.Nodup) (j k : Nat)
    (hj : j < cs.length) (hk : k < cs.length) (h : cs[j]? = cs[k]?) : j = k := by
  rw [List.getElem?_eq_getElem hj, List.getElem?_eq_getElem hk, Option.some.injEq] at h
  have hinj := List.nodup_iff_injective_get.mp hnd
  have hfin : (⟨j, hj⟩ : Fin cs.length) = ⟨k, hk⟩ := hinj h
  exact Fin.mk.inj_iff.mp hfin

/-- On distinct elements the loop of `rand.Shuffle` leaves different slices for different
draws. -/
theorem runSwaps_shuffleCalls_inj (d1 d2 : RandSource) :
    ∀ (i : Nat) (cs : List String), cs.Nodup → i < cs.length →
      runSwaps cs (shuffleCalls d1 i) = runSwaps cs (shuffleCalls d2 i) →
      ∀ k, 1 ≤ k → k ≤ i → d1 k = d2 k := by
  intro i
  induction i with
  | zero =>
    intro cs _ _ _ k h1 h2
    omega
  | succ i ih =>
    intro cs hnd hi heq k hk1 hk2
    have hj1 : (d1 (i + 1)).val < cs.length := by
      have := (d1 (i + 1)).isLt
      omega
    have hj2 : (d2 (i + 1)).val < cs.length := by
      have := (d2 (i + 1)).isLt
      omega
    obtain ⟨c1, hswap1⟩ : ∃ c1, swapClosure cs (i + 1) (d1 (i + 1)).val = some c1 :=
      ⟨_, swapClosure_some cs (i + 1) (d1 (i + 1)).val hi hj1⟩
    obtain ⟨c2, hswap2⟩ : ∃ c2, swapClosure cs (i + 1) (d2 (i + 1)).val = some c2 :=
      ⟨_, swapClosure_some cs (i + 1) (d2 (i + 1)).val hi hj2⟩
    have hperm1 := swapClosure_perm cs _ _ _ hswap1
    have hperm2 := swapClosure_perm cs _ _ _ hswap2
    obtain ⟨l1, hl1, -, hget1⟩ := runSwaps_shuffleCalls d1 i c1
      (by rw [hperm1.length_eq]; omega)
    obtain ⟨l2, hl2, -, hget2⟩ := runSwaps_shuffleCalls d2 i c2
      (by rw [hperm2.length_eq]; omega)
    simp only [shuffleCalls, runSwaps, hswap1, hswap2] at heq
    have hl : l1 = l2 := by
      rw [hl1, hl2, Option.some.injEq] at heq
      exact heq
    have htop : cs[(d1 (i + 1)).val]? = cs[(d2 (i + 1)).val]? := by
      rw [← (swapClosure_getElem? cs _ _ _ hswap1).1, ← (swapClosure_getElem? cs _ _ _ hswap2).1,
        ← hget1 (i + 1) (by omega), ← hget2 (i + 1) (by omega), hl]
    have hdraw : d1 (i + 1) = d2 (i + 1) :=
      Fin.ext (getElem?_inj_of_nodup cs hnd _ _ hj1 hj2 htop)
    by_cases hk : k = i + 1
    · subst hk
      exact hdraw
    · rw [← hdraw, hswap1, Option.some.injEq] at hswap2
      subst hswap2
      exact ih c1 (hperm1.nodup_iff.mpr hnd) (by rw [hperm1.length_eq]; omega) heq k hk1
        (by omega)

theorem getD_Shuffle_perm (random : RandSource) (candidates : List String) :
    ((Shuffle random candidates).getD []).Perm candidates := by
  obtain ⟨l, hl, hperm⟩ := Shuffle_some random candidates
  rw [hl]
  exact hperm

theorem Shuffle_length (random : RandSource) (candidates : List String) :
    ((Shuffle random candidates).getD []).length = candidates.length :=
  (getD_Shuffle_perm random candidates).length_eq

theorem Shuffle_perm (random : RandSource) (candidates : List String) :
    ((Shuffle random candidates).getD []).Perm candidates :=
  getD_Shuffle_perm random candidates

/-- What `selectRandomReviewers` returns for a count that is not negative. -/
theorem selectRandomReviewers_eq (random : RandSource) (candidates : List String) (count : Int)
    (h : 0 ≤ count) :
    selectRandomReviewers random candidates count
      = some (((Shuffle random candidates).getD []).take
          (min count.toNat candidates.length)) := by
  obtain ⟨l, hl, hperm⟩ := Shuffle_some random candidates
  have hlen : l.length = candidates.length := hperm.length_eq
  unfold selectRandomReviewers
  by_cases h0 : candidates.length = 0
  · have : candidates = [] := List.length_eq_zero.mp h0
    subst this
    simp [Shuffle, shuffleCalls, runSwaps]
  · simp only [h0, if_false, hl, Option.getD_some, hlen]
    by_cases hlt : (candidates.length : Int) < count
    · simp only [hlt, if_true]
      have h1 : ¬ ((candidates.length : Int) < 0) := by omega
      simp only [h1, if_false, Int.toNat_ofNat]
      congr 2
      omega
    · simp only [hlt, if_false]
      have h1 : ¬ (count < 0) := by omega
      simp only [h1, if_false]
      congr 2
      omega

theorem take_Shuffle_subperm (random : RandSource) (candidates : List String) (k : Nat) :
    List.Subperm (((Shuffle random candidates).getD []).take k) candidates :=
  (List.take_sublist k _).subperm.trans (Shuffle_perm random candidates).subperm

/-- For a count that is not negative the selection returns, and what it returns has the
length `min count (len candidates)` and holds candidates only. -/
theorem selectRandomReviewers_returns (random : RandSource) (candidates : List String)
    (count : Int) (h : 0 ≤ count) :
    ∃ r, selectRandomReviewers random candidates count = some r ∧
      r.length = min count.toNat candidates.length ∧ (∀ x ∈ r, x ∈ candidates) := by
  refine ⟨_, selectRandomReviewers_eq random candidates count h, ?_, ?_⟩
  · rw [List.length_take, Shuffle_length]
    omega
  · intro x hx
    exact (take_Shuffle_subperm random candidates _).subset hx

/-- C7. For every candidate list, every count that is not negative and every outcome of
the random source, `selectRandomReviewers` returns a list of length
`min count (len candidates)` whose elements all occur among the candidates, none more
often than it occurs there, so without duplicates when the candidates are distinct; for
no candidates it returns the empty list. -/
theorem selectRandomReviewers_spec (random : RandSource) (candidates : List String)
    (count : Int) (h : 0 ≤ count) :
    ∃ r, selectRandomReviewers random candidates count = some r ∧
      r.length = min count.toNat candidates.length ∧
      (∀ x ∈ r, x ∈ candidates) ∧
      (∀ x, r.count x ≤ candidates.count x) ∧
      (candidates.Nodup → r.Nodup) ∧
      (candidates = [] → r = []) := by
  refine ⟨_, selectRandomReviewers_eq random candidates count h, ?_, ?_, ?_, ?_, ?_⟩
  · rw [List.length_take, Shuffle_length]
    omega
  · intro x hx
    exact (take_Shuffle_subperm random candidates _).subset hx
  · intro x
    exact (take_Shuffle_subperm random candidates _).count_le x
  · intro hnd
    exact ((Shuffle_perm random candidates).nodup_iff.mpr hnd).sublist (List.take_sublist _ _)
  · intro he
    subst he
    simp [Shuffle]

theorem selectRandomReviewers_spec_witness :
    (0 : Int) ≤ 2 ∧
    ∃ r, selectRandomReviewers RandSource.zero ["u2", "u3", "u5"] 2
        = some r ∧
      r.length = min (2 : Int).toNat ["u2", "u3", "u5"].length ∧
      (∀ x ∈ r, x ∈ ["u2", "u3", "u5"]) ∧
      (∀ x, r.count x ≤ ["u2", "u3", "u5"].count x) ∧
      (["u2", "u3", "u5"].Nodup → r.Nodup) ∧
      (["u2", "u3", "u5"] = [] → r = []) :=
  ⟨by decide, selectRandomReviewers_spec _ _ 2 (by decide)⟩

/-! ## CreateAndAssignReviewers -/

theorem mem_createCandidates (members : List User) (authorID x : String) :
    x ∈ createCandidates members authorID ↔
      ∃ u ∈ members, u.IsActive = true ∧ u.UserID ≠ authorID ∧ u.UserID = x := by
  simp [createCandidates, and_assoc]

theorem length_createCandidates (members : List User) (authorID : String) :
    (createCandidates members authorID).length
      = members.countP (fun u => u.IsActive && u.UserID != authorID) := by
  simp [createCandidates, List.countP_eq_length_filter]

/-- The run of `CreateAndAssignReviewers` once the author and the team have resolved and
the selection has returned. -/
theorem CreateAndAssignReviewers_run {σ : Type} (s : PRServiceImpl σ) (now : Time) (st : σ)
    (prID prName authorID : String) (author : User) (st1 : σ) (team : Team) (st2 : σ)
    (reviewers : List String)
    (hu : s.teamRepo.GetUserByID st authorID = ((author, none), st1))
    (ht : s.teamRepo.GetTeamByName st1 author.TeamName = ((team, none), st2))
    (hsel : selectRandomReviewers s.random (createCandidates team.Members authorID) 2
      = some reviewers)
    (pr : PullRequest) (err : Option GoError) (st3 : σ)
    (hc : s.prRepo.CreatePullRequest st2
      { PullRequestID := prID, PullRequestName := prName, AuthorID := authorID,
        Status := StatusOpen, AssignedReviewers := reviewers,
        CreatedAt := some now, MergedAt := none } = ((pr, err), st3)) :
    CreateAndAssignReviewers s now st prID prName authorID
      = some ⟨pr, err, st3, [Call.GetUserByID authorID, Call.GetTeamByName author.TeamName,
          Call.CreatePullRequest
            { PullRequestID := prID, PullRequestName := prName, AuthorID := authorID,
              Status := StatusOpen, AssignedReviewers := reviewers,
              CreatedAt := some now, MergedAt := none }]⟩ := by
  simp only [CreateAndAssignReviewers, hu, ht, hsel, hc]

/-- C10. When the author and the author's team resolve, `CreateAndAssignReviewers`
selects reviewers from the candidate pool with target count 2, calls the store's create
once, with the pull request made of the caller's id, title and author id, status OPEN,
creation time `now`, no merge time and the selected reviewers, and returns exactly what
that call returns. -/
theorem CreateAndAssignReviewers_creates {σ : Type} (s : PRServiceImpl σ) (now : Time) (st : σ)
    (prID prName authorID : String) (author : User) (st1 : σ) (team : Team) (st2 : σ)
    (hu : s.teamRepo.GetUserByID st authorID = ((author, none), st1))
    (ht : s.teamRepo.GetTeamByName st1 author.TeamName = ((team, none), st2)) :
    ∃ reviewers run,
      selectRandomReviewers s.random (createCandidates team.Members authorID) 2 = some reviewers ∧
      CreateAndAssignReviewers s now st prID prName authorID = some run ∧
      run.calls = [Call.GetUserByID authorID, Call.GetTeamByName author.TeamName,
        Call.CreatePullRequest
          { PullRequestID := prID, PullRequestName := prName, AuthorID := authorID,
            Status := StatusOpen, AssignedReviewers := reviewers,
            CreatedAt := some now, MergedAt := none }] ∧
      run.calls.filter Call.isCreate = [Call.CreatePullRequest
          { PullRequestID := prID, PullRequestName := prName, AuthorID := authorID,
            Status := StatusOpen, AssignedReviewers := reviewers,
            CreatedAt := some now, MergedAt := none }] ∧
      ((run.ret, run.err), run.store) = s.prRepo.CreatePullRequest st2
          { PullRequestID := prID, PullRequestName := prName, AuthorID := authorID,
            Status := StatusOpen, AssignedReviewers := reviewers,
            CreatedAt := some now, MergedAt := none } := by
  obtain ⟨reviewers, hsel, -⟩ :=
    selectRandomReviewers_returns s.random (createCandidates team.Members authorID) 2 (by decide)
  rcases hc : s.prRepo.CreatePullRequest st2
      { PullRequestID := prID, PullRequestName := prName, AuthorID := authorID,
        Status := StatusOpen, AssignedReviewers := reviewers,
        CreatedAt := some now, MergedAt := none } with ⟨⟨pr, err⟩, st3⟩
  refine ⟨reviewers, ⟨pr, err, st3, _⟩, hsel, ?_, rfl, ?_, hc.symm⟩
  · exact CreateAndAssignReviewers_run s now st prID prName authorID author st1 team st2
      reviewers hu ht hsel pr err st3 hc
  · simp [Call.isCreate]

theorem CreateAndAssignReviewers_creates_witness :
    ∃ reviewers run,
      selectRandomReviewers svc.random (createCandidates backend.Members "u1") 2 = some reviewers ∧
      CreateAndAssignReviewers svc 20 store0 "pr-9" "N" "u1" = some run ∧
      run.calls = [Call.GetUserByID "u1", Call.GetTeamByName "backend",
        Call.CreatePullRequest
          { PullRequestID := "pr-9", PullRequestName := "N", AuthorID := "u1",
            Status := StatusOpen, AssignedReviewers := reviewers,
            CreatedAt := some 20, MergedAt := none }] ∧
      run.calls.filter Call.isCreate = [Call.CreatePullRequest
          { PullRequestID := "pr-9", PullRequestName := "N", AuthorID := "u1",
            Status := StatusOpen, AssignedReviewers := reviewers,
            CreatedAt := some 20, MergedAt := none }] ∧
      ((run.ret, run.err), run.store) = svc.prRepo.CreatePullRequest store0
          { PullRequestID := "pr-9", PullRequestName := "N", AuthorID := "u1",
            Status := StatusOpen, AssignedReviewers := reviewers,
            CreatedAt := some 20, MergedAt := none } :=
  CreateAndAssignReviewers_creates svc 20 store0 "pr-9" "N" "u1"
    ⟨"u1", "", "backend", true⟩ store0 backend store0 (by decide) (by decide)

/-- C1, as stated, fails in its last part: for a team in which an active and an inactive
member carry the same id, the pull request handed to the store has that id among its
reviewers, which is the id of an inactive member. -/
theorem CreateAndAssignReviewers_inactive_id :
    svc.teamRepo.GetTeamByName twinStore "twins" = ((twinTeam, none), twinStore) ∧
    (CreateAndAssignReviewers svc 20 twinStore "pr-9" "N" "u1").map (fun run => run.calls)
      = some [Call.GetUserByID "u1", Call.GetTeamByName "twins",
          Call.CreatePullRequest
            { PullRequestID := "pr-9", PullRequestName := "N", AuthorID := "u1",
              Status := StatusOpen, AssignedReviewers := ["u2"],
              CreatedAt := some 20, MergedAt := none }] ∧
    ∃ u ∈ twinTeam.Members, u.IsActive = false ∧ u.UserID ∈ ["u2"] := by
  decide

/-- C1, amended. Whatever the author id, the team returned for the author and the outcome
of the random source, the pull request that `CreateAndAssignReviewers` hands to the store
has exactly `min n 2` reviewers, where `n` counts the team members that are active and are
not the author, and every reviewer id is the id of such a member; so the list does not
contain the author id, nor, when the member ids of the team are pairwise distinct, the id
of an inactive member. -/
theorem CreateAndAssignReviewers_reviewers {σ : Type} (s : PRServiceImpl σ) (now : Time)
    (st : σ) (prID prName authorID : String) (author : User) (st1 : σ) (team : Team) (st2 : σ)
    (hu : s.teamRepo.GetUserByID st authorID = ((author, none), st1))
    (ht : s.teamRepo.GetTeamByName st1 author.TeamName = ((team, none), st2)) :
    ∃ run newPR,
      CreateAndAssignReviewers s now st prID prName authorID = some run ∧
      run.calls.filter Call.isCreate = [Call.CreatePullRequest newPR] ∧
      newPR.AssignedReviewers.length
        = min (team.Members.countP (fun u => u.IsActive && u.UserID != authorID)) 2 ∧
      (∀ id ∈ newPR.AssignedReviewers,
        ∃ u ∈ team.Members, u.UserID = id ∧ u.IsActive = true ∧ u.UserID ≠ authorID) ∧
      authorID ∉ newPR.AssignedReviewers ∧
      ((team.Members.map (fun u => u.UserID)).Nodup →
        ∀ u ∈ team.Members, u.IsActive = false → u.UserID ∉ newPR.AssignedReviewers) := by
  obtain ⟨reviewers, hsel, hlen, hmem⟩ :=
    selectRandomReviewers_returns s.random (createCandidates team.Members authorID) 2 (by decide)
  rcases hc : s.prRepo.CreatePullRequest st2
      { PullRequestID := prID, PullRequestName := prName, AuthorID := authorID,
        Status := StatusOpen, AssignedReviewers := reviewers,
        CreatedAt := some now, MergedAt := none } with ⟨⟨pr, err⟩, st3⟩
  have hact : ∀ id ∈ reviewers,
      ∃ u ∈ team.Members, u.UserID = id ∧ u.IsActive = true ∧ u.UserID ≠ authorID := by
    intro id hid
    obtain ⟨u, hu1, hu2, hu3, hu4⟩ := (mem_createCandidates _ _ _).mp (hmem id hid)
    exact ⟨u, hu1, hu4, hu2, hu3⟩
  refine ⟨_, PullRequest.mk prID prName authorID StatusOpen reviewers (some now) none,
    CreateAndAssignReviewers_run s now st prID prName authorID author st1 team st2
      reviewers hu ht hsel pr err st3 hc, by simp [Call.isCreate], ?_, hact, ?_, ?_⟩
  · show reviewers.length = _
    rw [hlen, length_createCandidates]
    simp [Nat.min_comm]
  · intro hin
    obtain ⟨u, -, hid, -, hne⟩ := hact authorID hin
    exact hne hid
  · intro hnd u hu1 hina hin
    obtain ⟨v, hv1, hid, hv2, -⟩ := hact u.UserID hin
    have : v = u := List.inj_on_of_nodup_map hnd hv1 hu1 hid
    subst this
    rw [hv2] at hina
    exact Bool.noConfusion hina

theorem CreateAndAssignReviewers_reviewers_witness :
    ∃ run newPR,
      CreateAndAssignReviewers svc 20 store0 "pr-9" "N" "u1" = some run ∧
      run.calls.filter Call.isCreate = [Call.CreatePullRequest newPR] ∧
      newPR.AssignedReviewers.length
        = min (backend.Members.countP (fun u => u.IsActive && u.UserID != "u1")) 2 ∧
      (∀ id ∈ newPR.AssignedReviewers,
        ∃ u ∈ backend.Members, u.UserID = id ∧ u.IsActive = true ∧ u.UserID ≠ "u1") ∧
      "u1" ∉ newPR.AssignedReviewers ∧
      ((backend.Members.map (fun u => u.UserID)).Nodup →
        ∀ u ∈ backend.Members, u.IsActive = false → u.UserID ∉ newPR.AssignedReviewers) :=
  CreateAndAssignReviewers_reviewers svc 20 store0 "pr-9" "N" "u1"
    ⟨"u1", "", "backend", true⟩ store0 backend store0 (by decide) (by decide)

/-! ## MergePullRequest -/

/-- The run of `MergePullRequest` on a pull request that is read as MERGED. -/
theorem MergePullRequest_merged_run {σ : Type} (s : PRServiceImpl σ) (now : Time) (st : σ)
    (prID : String) (pr : PullRequest) (st1 : σ)
    (hg : s.prRepo.GetPullRequestByID st prID = ((pr, none), st1))
    (hs : pr.Status = StatusMerged) :
    MergePullRequest s now st prID = ⟨pr, none, st1, [Call.GetPullRequestByID prID]⟩ := by
  simp only [MergePullRequest, hg, hs, if_true]

/-- The run of `MergePullRequest` on a pull request that is read as not MERGED. -/
theorem MergePullRequest_open_run {σ : Type} (s : PRServiceImpl σ) (now : Time) (st : σ)
    (prID : String) (pr : PullRequest) (st1 : σ)
    (hg : s.prRepo.GetPullRequestByID st prID = ((pr, none), st1))
    (hs : pr.Status ≠ StatusMerged)
    (updated : PullRequest) (err : Option GoError) (st2 : σ)
    (hupd : s.prRepo.UpdatePullRequest st1 { pr with Status := StatusMerged, MergedAt := some now }
      = ((updated, err), st2)) :
    MergePullRequest s now st prID
      = ⟨updated, err, st2, [Call.GetPullRequestByID prID,
          Call.UpdatePullRequest { pr with Status := StatusMerged, MergedAt := some now }]⟩ := by
  simp only [MergePullRequest, hg, hs, if_false, hupd]

theorem memory_prRepo_find_map (prs : List PullRequest) (pr : PullRequest)
    (h : prs.any (fun p => p.PullRequestID == pr.PullRequestID) = true) :
    (prs.map (fun p => if p.PullRequestID == pr.PullRequestID then pr else p)).find?
      (fun p => p.PullRequestID == pr.PullRequestID) = some pr := by
  induction prs with
  | nil => simp at h
  | cons a rest ih =>
    by_cases ha : a.PullRequestID = pr.PullRequestID
    · simp [ha]
    · have hrest : rest.any (fun p => p.PullRequestID == pr.PullRequestID) = true := by
        simpa [ha] using h
      simpa [ha] using ih hrest

/-- The in-memory store keeps what update writes. -/
theorem memory_prRepo_keepsWrites : KeepsWrites memory.prRepo where
  get_id := by
    intro st prID pr st1 h
    simp only [memory.prRepo, memory.getPullRequestByID] at h
    split at h
    · next p hp =>
      have := List.find?_some hp
      simp only [Prod.mk.injEq] at h
      obtain ⟨⟨rfl, -⟩, -⟩ := h
      simpa using this
    · simp at h
  get_pure := by
    intro st prID pr st1 h
    simp only [memory.prRepo, memory.getPullRequestByID] at h
    split at h
    · simp only [Prod.mk.injEq] at h
      exact h.2.symm
    · simp at h
  update_get := by
    intro st pr updated st1 h
    simp only [memory.prRepo, memory.updatePullRequest] at h
    split at h
    · next hany =>
      simp only [Prod.mk.injEq, and_true] at h
      obtain ⟨rfl, rfl⟩ := h
      refine ⟨rfl, ?_⟩
      simp only [memory.prRepo, memory.getPullRequestByID, memory_prRepo_find_map st.prs _ hany]
    · simp at h

/-- C4. `MergePullRequest` is idempotent. On a pull request that the store returns as
MERGED it returns that very pull request, merge time included, with no error, and calls
nothing but the read. Hence, over a store that keeps what update writes, after a first
call that succeeded at time `now1`, a second call at any time `now2` returns the same
pull request with no error, leaves the store as it is and does not call update. -/
theorem MergePullRequest_idempotent {σ : Type} (s : PRServiceImpl σ) :
    (∀ (now : Time) (st : σ) (prID : String) (pr : PullRequest) (st1 : σ),
      s.prRepo.GetPullRequestByID st prID = ((pr, none), st1) → pr.Status = StatusMerged →
        MergePullRequest s now st prID = ⟨pr, none, st1, [Call.GetPullRequestByID prID]⟩) ∧
    (KeepsWrites s.prRepo → ∀ (now1 now2 : Time) (st : σ) (prID : String),
      (MergePullRequest s now1 st prID).err = none →
        MergePullRequest s now2 (MergePullRequest s now1 st prID).store prID
          = ⟨(MergePullRequest s now1 st prID).ret, none, (MergePullRequest s now1 st prID).store,
              [Call.GetPullRequestByID prID]⟩) := by
  refine ⟨fun now st prID pr st1 hg hs => MergePullRequest_merged_run s now st prID pr st1 hg hs,
    ?_⟩
  intro hk now1 now2 st prID herr
  rcases hg : s.prRepo.GetPullRequestByID st prID with ⟨⟨pr, e⟩, st1⟩
  cases e with
  | some e =>
    simp [MergePullRequest, hg] at herr
  | none =>
    have hid := hk.get_id st prID pr st1 hg
    have hst := hk.get_pure st prID pr st1 hg
    by_cases hs : pr.Status = StatusMerged
    · rw [MergePullRequest_merged_run s now1 st prID pr st1 hg hs]
      subst hst
      exact MergePullRequest_merged_run s now2 _ prID pr _ hg hs
    · rcases hupd : s.prRepo.UpdatePullRequest st1
          { pr with Status := StatusMerged, MergedAt := some now1 } with ⟨⟨updated, err⟩, st2⟩
      rw [MergePullRequest_open_run s now1 st prID pr st1 hg hs updated err st2 hupd] at herr ⊢
      simp only at herr
      subst herr
      obtain ⟨rfl, hget⟩ := hk.update_get _ _ _ _ hupd
      subst hid
      exact MergePullRequest_merged_run s now2 st2 _ _ st2 hget rfl

theorem MergePullRequest_idempotent_witness :
    (MergePullRequest svc 30 store0 "pr-2" = ⟨mergedPR, none, store0, [Call.GetPullRequestByID "pr-2"]⟩) ∧
    (MergePullRequest svc 30 store0 "pr-1").err = none ∧
    MergePullRequest svc 99 (MergePullRequest svc 30 store0 "pr-1").store "pr-1"
      = ⟨(MergePullRequest svc 30 store0 "pr-1").ret, none,
          (MergePullRequest svc 30 store0 "pr-1").store, [Call.GetPullRequestByID "pr-1"]⟩ :=
  ⟨(MergePullRequest_idempotent svc).1 30 store0 "pr-2" mergedPR store0 (by decide) (by decide),
    by decide,
    (MergePullRequest_idempotent svc).2 memory_prRepo_keepsWrites 30 99 store0 "pr-1" (by decide)⟩

/-- C9. On a pull request that the store returns with a status other than MERGED,
`MergePullRequest` calls the store's update with a pull request of status MERGED and merge
time `now` whose id, title, author id, reviewer list and creation time are those read, and
it returns exactly what update returns, its error included. -/
theorem MergePullRequest_merges {σ : Type} (s : PRServiceImpl σ) (now : Time) (st : σ)
    (prID : String) (pr : PullRequest) (st1 : σ)
    (hg : s.prRepo.GetPullRequestByID st prID = ((pr, none), st1))
    (hs : pr.Status ≠ StatusMerged) :
    ∃ merged : PullRequest,
      (MergePullRequest s now st prID).calls
        = [Call.GetPullRequestByID prID, Call.UpdatePullRequest merged] ∧
      merged.Status = StatusMerged ∧ merged.MergedAt = some now ∧
      merged.PullRequestID = pr.PullRequestID ∧ merged.PullRequestName = pr.PullRequestName ∧
      merged.AuthorID = pr.AuthorID ∧ merged.AssignedReviewers = pr.AssignedReviewers ∧
      merged.CreatedAt = pr.CreatedAt ∧
      (((MergePullRequest s now st prID).ret, (MergePullRequest s now st prID).err),
        (MergePullRequest s now st prID).store) = s.prRepo.UpdatePullRequest st1 merged := by
  rcases hupd : s.prRepo.UpdatePullRequest st1
      { pr with Status := StatusMerged, MergedAt := some now } with ⟨⟨updated, err⟩, st2⟩
  refine ⟨{ pr with Status := StatusMerged, MergedAt := some now }, ?_, rfl, rfl, rfl, rfl, rfl,
    rfl, rfl, ?_⟩
  · rw [MergePullRequest_open_run s now st prID pr st1 hg hs updated err st2 hupd]
  · rw [MergePullRequest_open_run s now st prID pr st1 hg hs updated err st2 hupd, hupd]

theorem MergePullRequest_merges_witness :
    ∃ merged : PullRequest,
      (MergePullRequest svc 30 store0 "pr-1").calls
        = [Call.GetPullRequestByID "pr-1", Call.UpdatePullRequest merged] ∧
      merged.Status = StatusMerged ∧ merged.MergedAt = some 30 ∧
      merged.PullRequestID = openPR.PullRequestID ∧
      merged.PullRequestName = openPR.PullRequestName ∧
      merged.AuthorID = openPR.AuthorID ∧ merged.AssignedReviewers = openPR.AssignedReviewers ∧
      merged.CreatedAt = openPR.CreatedAt ∧
      (((MergePullRequest svc 30 store0 "pr-1").ret, (MergePullRequest svc 30 store0 "pr-1").err),
        (MergePullRequest svc 30 store0 "pr-1").store) = svc.prRepo.UpdatePullRequest store0 merged :=
  MergePullRequest_merges svc 30 store0 "pr-1" openPR store0 (by decide) (by decide)

/-! ## ReassignReviewer -/

theorem oldReviewerIndexFrom_eq (oldUserID : String) (reviewers : List String) (i : Nat) :
    oldReviewerIndexFrom oldUserID reviewers i
      = if oldUserID ∈ reviewers then ((i + reviewers.indexOf oldUserID : Nat) : Int) else -1 := by
  induction reviewers generalizing i with
  | nil => simp [oldReviewerIndexFrom]
  | cons a rest ih =>
    by_cases ha : a = oldUserID
    · subst ha
      simp [oldReviewerIndexFrom]
    · have hne : ¬ oldUserID = a := fun h => ha h.symm
      simp only [oldReviewerIndexFrom, ha, if_false, ih, List.mem_cons, hne, false_or]
      split
      · rw [List.indexOf_cons_ne _ ha]
        congr 1
        omega
      · rfl

theorem oldReviewerIndexFrom_of_not_mem (oldUserID : String) (reviewers : List String)
    (h : oldUserID ∉ reviewers) : oldReviewerIndexFrom oldUserID reviewers 0 = -1 := by
  rw [oldReviewerIndexFrom_eq, if_neg h]

theorem oldReviewerIndexFrom_of_mem (oldUserID : String) (reviewers : List String)
    (h : oldUserID ∈ reviewers) :
    oldReviewerIndexFrom oldUserID reviewers 0 = (reviewers.indexOf oldUserID : Int) := by
  rw [oldReviewerIndexFrom_eq, if_pos h, Nat.zero_add]

theorem assignAt_indexOf (reviewers : List String) (oldUserID id : String)
    (h : oldUserID ∈ reviewers) :
    assignAt reviewers (reviewers.indexOf oldUserID : Int) id
      = some (reviewers.set (reviewers.indexOf oldUserID) id) := by
  have hlt : reviewers.indexOf oldUserID < reviewers.length := List.indexOf_lt_length.mpr h
  have hc : 0 ≤ ((reviewers.indexOf oldUserID : Nat) : Int) ∧
      ((reviewers.indexOf oldUserID : Nat) : Int) < (reviewers.length : Int) := by
    constructor <;> omega
  simp only [assignAt, hc, and_self, if_true, Int.toNat_ofNat]

theorem foldl_update_true (ids : List String) (m : String → Bool) (x : String) :
    (ids.foldl (fun m id => Function.update m id true) m) x = true ↔ x ∈ ids ∨ m x = true := by
  induction ids generalizing m with
  | nil => simp
  | cons a rest ih =>
    rw [List.foldl_cons, ih]
    by_cases hx : x = a
    · subst hx
      simp
    · simp [Function.update_noteq hx, hx]

theorem assignedSet_eq_true (pr : PullRequest) (x : String) :
    assignedSet pr x = true ↔ x ∈ pr.AssignedReviewers ∨ x = pr.AuthorID := by
  unfold assignedSet
  by_cases hx : x = pr.AuthorID
  · subst hx
    simp
  · rw [Function.update_noteq hx, foldl_update_true]
    simp [hx]

theorem mem_reassignCandidates (members : List User) (pr : PullRequest) (x : String) :
    x ∈ reassignCandidates members pr ↔
      ∃ u ∈ members, u.IsActive = true ∧ u.UserID ∉ pr.AssignedReviewers ∧
        u.UserID ≠ pr.AuthorID ∧ u.UserID = x := by
  simp only [reassignCandidates, List.mem_map, List.mem_filter, Bool.and_eq_true,
    Bool.not_eq_true', ← Bool.not_eq_true, assignedSet_eq_true, not_or]
  constructor
  · rintro ⟨u, ⟨hu, ha, hn1, hn2⟩, rfl⟩
    exact ⟨u, hu, ha, hn1, hn2, rfl⟩
  · rintro ⟨u, hu, ha, hn1, hn2, rfl⟩
    exact ⟨u, ⟨hu, ha, hn1, hn2⟩, rfl⟩

/-- With at least one candidate, a selection of one returns exactly one candidate. -/
theorem selectRandomReviewers_one (random : RandSource) (candidates : List String)
    (h : candidates ≠ []) :
    ∃ id, id ∈ candidates ∧ selectRandomReviewers random candidates 1 = some [id] := by
  obtain ⟨r, hsel, hlen, hmem⟩ := selectRandomReviewers_returns random candidates 1 (by decide)
  have hpos : 0 < candidates.length := List.length_pos.mpr h
  have h1 : r.length = 1 := by
    rw [hlen]
    simp only [Int.toNat_one]
    omega
  obtain ⟨id, rfl⟩ := List.length_eq_one.mp h1
  exact ⟨id, hmem id (by simp), hsel⟩

/-- The run of `ReassignReviewer` on a pull request that is read as MERGED. -/
theorem ReassignReviewer_merged_run {σ : Type} (s : PRServiceImpl σ) (st : σ)
    (prID oldUserID : String) (pr : PullRequest) (st1 : σ)
    (hg : s.prRepo.GetPullRequestByID st prID = ((pr, none), st1))
    (hs : pr.Status = StatusMerged) :
    ReassignReviewer s st prID oldUserID
      = some ⟨(PullRequest.zero, ""), some errMerged, st1, [Call.GetPullRequestByID prID]⟩ := by
  simp only [ReassignReviewer, hg, hs, if_true]

/-- The run of `ReassignReviewer` when the old reviewer is not in the list. -/
theorem ReassignReviewer_notAssigned_run {σ : Type} (s : PRServiceImpl σ) (st : σ)
    (prID oldUserID : String) (pr : PullRequest) (st1 : σ)
    (hg : s.prRepo.GetPullRequestByID st prID = ((pr, none), st1))
    (hs : pr.Status ≠ StatusMerged) (hn : oldUserID ∉ pr.AssignedReviewers) :
    ReassignReviewer s st prID oldUserID
      = some ⟨(PullRequest.zero, ""), some errNotAssigned, st1,
          [Call.GetPullRequestByID prID]⟩ := by
  simp only [ReassignReviewer, hg, hs, if_false, oldReviewerIndexFrom_of_not_mem _ _ hn, if_true]

/-- The run of `ReassignReviewer` when the lookup of the old reviewer fails. -/
theorem ReassignReviewer_userError_run {σ : Type} (s : PRServiceImpl σ) (st : σ)
    (prID oldUserID : String) (pr : PullRequest) (st1 : σ)
    (hg : s.prRepo.GetPullRequestByID st prID = ((pr, none), st1))
    (hs : pr.Status ≠ StatusMerged) (hin : oldUserID ∈ pr.AssignedReviewers)
    (oldReviewer : User) (e : GoError) (st2 : σ)
    (hu : s.teamRepo.GetUserByID st1 oldUserID = ((oldReviewer, some e), st2)) :
    ReassignReviewer s st prID oldUserID
      = some ⟨(PullRequest.zero, ""), some e, st2,
          [Call.GetPullRequestByID prID, Call.GetUserByID oldUserID]⟩ := by
  have hidx : ¬ ((List.indexOf oldUserID pr.AssignedReviewers : Nat) : Int) = -1 := by omega
  simp only [ReassignReviewer, hg, hs, if_false, oldReviewerIndexFrom_of_mem _ _ hin, hidx, hu]

/-- The run of `ReassignReviewer` when the lookup of the team fails. -/
theorem ReassignReviewer_teamError_run {σ : Type} (s : PRServiceImpl σ) (st : σ)
    (prID oldUserID : String) (pr : PullRequest) (st1 : σ)
    (hg : s.prRepo.GetPullRequestByID st prID = ((pr, none), st1))
    (hs : pr.Status ≠ StatusMerged) (hin : oldUserID ∈ pr.AssignedReviewers)
    (oldReviewer : User) (st2 : σ)
    (hu : s.teamRepo.GetUserByID st1 oldUserID = ((oldReviewer, none), st2))
    (team : Team) (e : GoError) (st3 : σ)
    (ht : s.teamRepo.GetTeamByName st2 oldReviewer.TeamName = ((team, some e), st3)) :
    ReassignReviewer s st prID oldUserID
      = some ⟨(PullRequest.zero, ""), some e, st3,
          [Call.GetPullRequestByID prID, Call.GetUserByID oldUserID,
            Call.GetTeamByName oldReviewer.TeamName]⟩ := by
  have hidx : ¬ ((List.indexOf oldUserID pr.AssignedReviewers : Nat) : Int) = -1 := by omega
  simp only [ReassignReviewer, hg, hs, if_false, oldReviewerIndexFrom_of_mem _ _ hin, hidx, hu, ht]

/-- The run of `ReassignReviewer` when the team holds no candidate. -/
theorem ReassignReviewer_noCandidate_run {σ : Type} (s : PRServiceImpl σ) (st : σ)
    (prID oldUserID : String) (pr : PullRequest) (st1 : σ)
    (hg : s.prRepo.GetPullRequestByID st prID = ((pr, none), st1))
    (hs : pr.Status ≠ StatusMerged) (hin : oldUserID ∈ pr.AssignedReviewers)
    (oldReviewer : User) (st2 : σ)
    (hu : s.teamRepo.GetUserByID st1 oldUserID = ((oldReviewer, none), st2))
    (team : Team) (st3 : σ)
    (ht : s.teamRepo.GetTeamByName st2 oldReviewer.TeamName = ((team, none), st3))
    (hc : reassignCandidates team.Members pr = []) :
    ReassignReviewer s st prID oldUserID
      = some ⟨(PullRequest.zero, ""), some errNoCandidate, st3,
          [Call.GetPullRequestByID prID, Call.GetUserByID oldUserID,
            Call.GetTeamByName oldReviewer.TeamName]⟩ := by
  have hidx : ¬ ((List.indexOf oldUserID pr.AssignedReviewers : Nat) : Int) = -1 := by omega
  simp only [ReassignReviewer, hg, hs, if_false, oldReviewerIndexFrom_of_mem _ _ hin, hidx, hu, ht,
    hc, List.length_nil, if_true]

/-- The run of `ReassignReviewer` when the team holds a candidate: one candidate is
selected, written over the first occurrence of the old reviewer, and the store's update
decides the result. -/
theorem ReassignReviewer_update_run {σ : Type} (s : PRServiceImpl σ) (st : σ)
    (prID oldUserID : String) (pr : PullRequest) (st1 : σ)
    (hg : s.prRepo.GetPullRequestByID st prID = ((pr, none), st1))
    (hs : pr.Status ≠ StatusMerged) (hin : oldUserID ∈ pr.AssignedReviewers)
    (oldReviewer : User) (st2 : σ)
    (hu : s.teamRepo.GetUserByID st1 oldUserID = ((oldReviewer, none), st2))
    (team : Team) (st3 : σ)
    (ht : s.teamRepo.GetTeamByName st2 oldReviewer.TeamName = ((team, none), st3))
    (hc : reassignCandidates team.Members pr ≠ []) :
    ∃ newUserID, newUserID ∈ reassignCandidates team.Members pr ∧
      selectRandomReviewers s.random (reassignCandidates team.Members pr) 1 = some [newUserID] ∧
      ∀ (updatedPR : PullRequest) (err : Option GoError) (st4 : σ),
        s.prRepo.UpdatePullRequest
            (s.prRepo.ReviewerSlotWrite st3 prID (pr.AssignedReviewers.indexOf oldUserID)
              newUserID)
          { pr with AssignedReviewers :=
              pr.AssignedReviewers.set (pr.AssignedReviewers.indexOf oldUserID) newUserID }
          = ((updatedPR, err), st4) →
        ReassignReviewer s st prID oldUserID
          = some ⟨(if err = none then (updatedPR, newUserID) else (PullRequest.zero, "")), err, st4,
              [Call.GetPullRequestByID prID, Call.GetUserByID oldUserID,
                Call.GetTeamByName oldReviewer.TeamName,
                Call.UpdatePullRequest
                  { pr with AssignedReviewers :=
                      (pr.AssignedReviewers.set (pr.AssignedReviewers.indexOf oldUserID)
                        newUserID) }]⟩ := by
  obtain ⟨newUserID, hmem, hsel⟩ := selectRandomReviewers_one s.random _ hc
  refine ⟨newUserID, hmem, hsel, ?_⟩
  intro updatedPR err st4 hupd
  have hidx : ¬ ((List.indexOf oldUserID pr.AssignedReviewers : Nat) : Int) = -1 := by omega
  have hlen : ¬ (reassignCandidates team.Members pr).length = 0 := by
    rw [List.length_eq_zero]
    exact hc
  cases err with
  | none =>
    simp only [ReassignReviewer, hg, hs, if_false, oldReviewerIndexFrom_of_mem _ _ hin, hidx, hu,
      ht, hlen, hsel, List.getElem?_cons_zero, assignAt_indexOf _ _ _ hin, Int.toNat_ofNat,
      hupd, if_true]
  | some e =>
    simp only [ReassignReviewer, hg, hs, if_false, oldReviewerIndexFrom_of_mem _ _ hin, hidx, hu,
      ht, hlen, hsel, List.getElem?_cons_zero, assignAt_indexOf _ _ _ hin, Int.toNat_ofNat,
      hupd]
    simp

/-- A successful run of `ReassignReviewer`, taken apart. -/
theorem ReassignReviewer_success_inv {σ : Type} (s : PRServiceImpl σ) (st : σ)
    (prID oldUserID : String) (run : Run σ (PullRequest × String))
    (h : ReassignReviewer s st prID oldUserID = some run) (herr : run.err = none) :
    ∃ (pr : PullRequest) (st1 : σ) (oldReviewer : User) (st2 : σ) (team : Team) (st3 : σ)
      (newUserID : String) (updatedPR : PullRequest) (st4 : σ),
      s.prRepo.GetPullRequestByID st prID = ((pr, none), st1) ∧
      pr.Status ≠ StatusMerged ∧ oldUserID ∈ pr.AssignedReviewers ∧
      s.teamRepo.GetUserByID st1 oldUserID = ((oldReviewer, none), st2) ∧
      s.teamRepo.GetTeamByName st2 oldReviewer.TeamName = ((team, none), st3) ∧
      newUserID ∈ reassignCandidates team.Members pr ∧
      selectRandomReviewers s.random (reassignCandidates team.Members pr) 1 = some [newUserID] ∧
      s.prRepo.UpdatePullRequest
          (s.prRepo.ReviewerSlotWrite st3 prID (pr.AssignedReviewers.indexOf oldUserID)
            newUserID)
        { pr with AssignedReviewers :=
            (pr.AssignedReviewers.set (pr.AssignedReviewers.indexOf oldUserID) newUserID) }
        = ((updatedPR, none), st4) ∧
      run = ⟨(updatedPR, newUserID), none, st4,
        [Call.GetPullRequestByID prID, Call.GetUserByID oldUserID,
          Call.GetTeamByName oldReviewer.TeamName,
          Call.UpdatePullRequest
            { pr with AssignedReviewers :=
                (pr.AssignedReviewers.set (pr.AssignedReviewers.indexOf oldUserID)
                  newUserID) }]⟩ := by
  rcases hg : s.prRepo.GetPullRequestByID st prID with ⟨⟨pr, e⟩, st1⟩
  cases e with
  | some e =>
    simp only [ReassignReviewer, hg, Option.some.injEq] at h
    subst h
    simp at herr
  | none =>
  by_cases hs : pr.Status = StatusMerged
  · rw [ReassignReviewer_merged_run s st prID oldUserID pr st1 hg hs, Option.some.injEq] at h
    subst h
    simp at herr
  by_cases hin : oldUserID ∈ pr.AssignedReviewers
  swap
  · rw [ReassignReviewer_notAssigned_run s st prID oldUserID pr st1 hg hs hin,
      Option.some.injEq] at h
    subst h
    simp at herr
  rcases hu : s.teamRepo.GetUserByID st1 oldUserID with ⟨⟨oldReviewer, e⟩, st2⟩
  cases e with
  | some e =>
    rw [ReassignReviewer_userError_run s st prID oldUserID pr st1 hg hs hin oldReviewer e st2 hu,
      Option.some.injEq] at h
    subst h
    simp at herr
  | none =>
  rcases ht : s.teamRepo.GetTeamByName st2 oldReviewer.TeamName with ⟨⟨team, e⟩, st3⟩
  cases e with
  | some e =>
    rw [ReassignReviewer_teamError_run s st prID oldUserID pr st1 hg hs hin oldReviewer st2 hu
      team e st3 ht, Option.some.injEq] at h
    subst h
    simp at herr
  | none =>
  by_cases hc : reassignCandidates team.Members pr = []
  · rw [ReassignReviewer_noCandidate_run s st prID oldUserID pr st1 hg hs hin oldReviewer st2 hu
      team st3 ht hc, Option.some.injEq] at h
    subst h
    simp at herr
  obtain ⟨newUserID, hmem, hsel, hrun⟩ :=
    ReassignReviewer_update_run s st prID oldUserID pr st1 hg hs hin oldReviewer st2 hu team st3
      ht hc
  rcases hupd : s.prRepo.UpdatePullRequest
      (s.prRepo.ReviewerSlotWrite st3 prID (pr.AssignedReviewers.indexOf oldUserID) newUserID)
      { pr with AssignedReviewers :=
          (pr.AssignedReviewers.set (pr.AssignedReviewers.indexOf oldUserID) newUserID) }
    with ⟨⟨updatedPR, err⟩, st4⟩
  rw [hrun updatedPR err st4 hupd, Option.some.injEq] at h
  subst h
  simp only at herr
  subst herr
  exact ⟨pr, st1, oldReviewer, st2, team, st3, newUserID, updatedPR, st4, rfl, hs, hin, hu, ht,
    hmem, hsel, hupd, by simp⟩

/-- The index `indexOf` is that of the first occurrence. -/
theorem indexOf_first (oldUserID : String) (reviewers : List String)
    (h : oldUserID ∈ reviewers) :
    reviewers[reviewers.indexOf oldUserID]? = some oldUserID ∧
      ∀ j, j < reviewers.indexOf oldUserID → reviewers[j]? ≠ some oldUserID := by
  induction reviewers with
  | nil => simp at h
  | cons a rest ih =>
    by_cases ha : a = oldUserID
    · subst ha
      simp
    · have hrest : oldUserID ∈ rest := by
        rcases List.mem_cons.mp h with h1 | h1
        · exact absurd h1.symm ha
        · exact h1
      obtain ⟨h1, h2⟩ := ih hrest
      rw [List.indexOf_cons_ne _ ha]
      refine ⟨by simpa using h1, ?_⟩
      intro j hj
      cases j with
      | zero => simpa using ha
      | succ j =>
        simpa using h2 j (by omega)

/-- C2. In every successful run of `ReassignReviewer` on a pull request with reviewer list
`L`, the list passed to the store's update has the length of `L`, holds the returned new
reviewer id at the index of the first occurrence of `oldUserID` in `L` and agrees with `L`
at every other index; and the new reviewer id is neither the author id nor an id of `L`. -/
theorem ReassignReviewer_replaces {σ : Type} (s : PRServiceImpl σ) (st : σ)
    (prID oldUserID : String) (run : Run σ (PullRequest × String))
    (h : ReassignReviewer s st prID oldUserID = some run) (herr : run.err = none) :
    ∃ (pr : PullRequest) (st1 : σ) (changed : PullRequest),
      s.prRepo.GetPullRequestByID st prID = ((pr, none), st1) ∧
      run.calls.filter Call.isUpdate = [Call.UpdatePullRequest changed] ∧
      changed.AssignedReviewers.length = pr.AssignedReviewers.length ∧
      pr.AssignedReviewers.indexOf oldUserID < pr.AssignedReviewers.length ∧
      pr.AssignedReviewers[pr.AssignedReviewers.indexOf oldUserID]? = some oldUserID ∧
      (∀ j, j < pr.AssignedReviewers.indexOf oldUserID →
        pr.AssignedReviewers[j]? ≠ some oldUserID) ∧
      changed.AssignedReviewers[pr.AssignedReviewers.indexOf oldUserID]? = some run.ret.2 ∧
      (∀ j, j ≠ pr.AssignedReviewers.indexOf oldUserID →
        changed.AssignedReviewers[j]? = pr.AssignedReviewers[j]?) ∧
      run.ret.2 ≠ pr.AuthorID ∧ run.ret.2 ∉ pr.AssignedReviewers := by
  obtain ⟨pr, st1, oldReviewer, st2, team, st3, newUserID, updatedPR, st4, hg, -, hin, -, -,
    hmem, -, -, rfl⟩ := ReassignReviewer_success_inv s st prID oldUserID run h herr
  have hlt : pr.AssignedReviewers.indexOf oldUserID < pr.AssignedReviewers.length :=
    List.indexOf_lt_length.mpr hin
  obtain ⟨u, -, -, hn1, hn2, rfl⟩ := (mem_reassignCandidates _ _ _).mp hmem
  refine ⟨pr, st1,
    ({ pr with AssignedReviewers :=
        (pr.AssignedReviewers.set (pr.AssignedReviewers.indexOf oldUserID) u.UserID) } :
      PullRequest),
    hg, by simp [Call.isUpdate], ?_, hlt, (indexOf_first _ _ hin).1,
    (indexOf_first _ _ hin).2, ?_, ?_, hn2, hn1⟩
  · simp
  · simp [List.getElem?_set_self hlt]
  · intro j hj
    simp [List.getElem?_set_ne (Ne.symm hj)]

theorem ReassignReviewer_replaces_witness :
    ReassignReviewer svc store0 "pr-1" "u2"
      = some ⟨(reassignedPR, "u5"), none, store1,
          [Call.GetPullRequestByID "pr-1", Call.GetUserByID "u2", Call.GetTeamByName "backend",
            Call.UpdatePullRequest reassignedPR]⟩ ∧
    ∃ (pr : PullRequest) (st1 : MemStore) (changed : PullRequest),
      svc.prRepo.GetPullRequestByID store0 "pr-1" = ((pr, none), st1) ∧
      [Call.UpdatePullRequest reassignedPR] = [Call.UpdatePullRequest changed] ∧
      changed.AssignedReviewers.length = pr.AssignedReviewers.length ∧
      pr.AssignedReviewers.indexOf "u2" < pr.AssignedReviewers.length ∧
      pr.AssignedReviewers[pr.AssignedReviewers.indexOf "u2"]? = some "u2" ∧
      (∀ j, j < pr.AssignedReviewers.indexOf "u2" → pr.AssignedReviewers[j]? ≠ some "u2") ∧
      changed.AssignedReviewers[pr.AssignedReviewers.indexOf "u2"]? = some "u5" ∧
      (∀ j, j ≠ pr.AssignedReviewers.indexOf "u2" →
        changed.AssignedReviewers[j]? = pr.AssignedReviewers[j]?) ∧
      "u5" ≠ pr.AuthorID ∧ "u5" ∉ pr.AssignedReviewers :=
  ⟨by decide,
    ReassignReviewer_replaces svc store0 "pr-1" "u2"
      ⟨(reassignedPR, "u5"), none, store1,
        [Call.GetPullRequestByID "pr-1", Call.GetUserByID "u2", Call.GetTeamByName "backend",
          Call.UpdatePullRequest reassignedPR]⟩ (by decide) rfl⟩

/-- C3. On a pull request that the store returns as MERGED, whatever the old reviewer id
and the team directory, `ReassignReviewer` fails with a business error of code PR_MERGED,
returns the empty pull request and the empty new reviewer id, and calls nothing but the
read: no update, so the store is as the read left it. -/
theorem ReassignReviewer_merged {σ : Type} (s : PRServiceImpl σ) (st : σ)
    (prID oldUserID : String) (pr : PullRequest) (st1 : σ)
    (hg : s.prRepo.GetPullRequestByID st prID = ((pr, none), st1))
    (hs : pr.Status = StatusMerged) :
    ∃ run, ReassignReviewer s st prID oldUserID = some run ∧
      run.err = some (GoError.business ⟨ErrPRMerged, "cannot reassign on merged PR"⟩) ∧
      run.ret = (PullRequest.zero, "") ∧
      run.calls = [Call.GetPullRequestByID prID] ∧
      run.calls.all (fun c => !c.isUpdate) = true ∧
      run.store = st1 :=
  ⟨_, ReassignReviewer_merged_run s st prID oldUserID pr st1 hg hs, rfl, rfl, rfl, rfl, rfl⟩

theorem ReassignReviewer_merged_witness :
    ∃ run, ReassignReviewer svc store0 "pr-2" "u7" = some run ∧
      run.err = some (GoError.business ⟨ErrPRMerged, "cannot reassign on merged PR"⟩) ∧
      run.ret = (PullRequest.zero, "") ∧
      run.calls = [Call.GetPullRequestByID "pr-2"] ∧
      run.calls.all (fun c => !c.isUpdate) = true ∧
      run.store = store0 :=
  ReassignReviewer_merged svc store0 "pr-2" "u7" mergedPR store0 (by decide) (by decide)

/-- C5. On a pull request that exists and is not MERGED, for an old reviewer id that
equals no element of the reviewer list, `ReassignReviewer` fails with a business error of
code NOT_ASSIGNED and calls nothing but the read: neither the team directory nor the
store's update. -/
theorem ReassignReviewer_notAssigned {σ : Type} (s : PRServiceImpl σ) (st : σ)
    (prID oldUserID : String) (pr : PullRequest) (st1 : σ)
    (hg : s.prRepo.GetPullRequestByID st prID = ((pr, none), st1))
    (hs : pr.Status ≠ StatusMerged) (hn : ∀ id ∈ pr.AssignedReviewers, id ≠ oldUserID) :
    ∃ run, ReassignReviewer s st prID oldUserID = some run ∧
      run.err = some (GoError.business ⟨ErrNotAssigned, "reviewer is not assigned to this PR"⟩) ∧
      run.ret = (PullRequest.zero, "") ∧
      run.calls = [Call.GetPullRequestByID prID] ∧
      run.calls.all (fun c => !c.isTeamCall && !c.isUpdate) = true ∧
      run.store = st1 :=
  ⟨_, ReassignReviewer_notAssigned_run s st prID oldUserID pr st1 hg hs
      (fun hin => hn oldUserID hin rfl), rfl, rfl, rfl, rfl, rfl⟩

theorem ReassignReviewer_notAssigned_witness :
    ∃ run, ReassignReviewer svc store0 "pr-1" "u9" = some run ∧
      run.err = some (GoError.business ⟨ErrNotAssigned, "reviewer is not assigned to this PR"⟩) ∧
      run.ret = (PullRequest.zero, "") ∧
      run.calls = [Call.GetPullRequestByID "pr-1"] ∧
      run.calls.all (fun c => !c.isTeamCall && !c.isUpdate) = true ∧
      run.store = store0 :=
  ReassignReviewer_notAssigned svc store0 "pr-1" "u9" openPR store0 (by decide) (by decide)
    (by decide)

/-- C6. On a pull request that is not MERGED and whose reviewer list contains the old
reviewer, when the old reviewer and the team resolve and no member of that team is active
and neither the author nor an assigned reviewer, `ReassignReviewer` fails with a business
error of code NO_CANDIDATE and does not call the store's update, so the store is as the
reads left it. -/
theorem ReassignReviewer_noCandidate {σ : Type} (s : PRServiceImpl σ) (st : σ)
    (prID oldUserID : String) (pr : PullRequest) (st1 : σ)
    (hg : s.prRepo.GetPullRequestByID st prID = ((pr, none), st1))
    (hs : pr.Status ≠ StatusMerged) (hin : oldUserID ∈ pr.AssignedReviewers)
    (oldReviewer : User) (st2 : σ)
    (hu : s.teamRepo.GetUserByID st1 oldUserID = ((oldReviewer, none), st2))
    (team : Team) (st3 : σ)
    (ht : s.teamRepo.GetTeamByName st2 oldReviewer.TeamName = ((team, none), st3))
    (hnone : ∀ u ∈ team.Members,
      ¬ (u.IsActive = true ∧ u.UserID ≠ pr.AuthorID ∧ u.UserID ∉ pr.AssignedReviewers)) :
    ∃ run, ReassignReviewer s st prID oldUserID = some run ∧
      run.err = some (GoError.business
        ⟨ErrNoCandidate, "no active replacement candidate in team"⟩) ∧
      run.ret = (PullRequest.zero, "") ∧
      run.calls = [Call.GetPullRequestByID prID, Call.GetUserByID oldUserID,
        Call.GetTeamByName oldReviewer.TeamName] ∧
      run.calls.all (fun c => !c.isUpdate) = true ∧
      run.store = st3 := by
  have hc : reassignCandidates team.Members pr = [] := by
    rw [List.eq_nil_iff_forall_not_mem]
    intro x hx
    obtain ⟨u, hu1, ha, hn1, hn2, -⟩ := (mem_reassignCandidates _ _ _).mp hx
    exact hnone u hu1 ⟨ha, hn2, hn1⟩
  exact ⟨_, ReassignReviewer_noCandidate_run s st prID oldUserID pr st1 hg hs hin oldReviewer st2
    hu team st3 ht hc, rfl, rfl, rfl, rfl, rfl⟩

theorem ReassignReviewer_noCandidate_witness :
    ∃ run, ReassignReviewer svc store0 "pr-3" "u2" = some run ∧
      run.err = some (GoError.business
        ⟨ErrNoCandidate, "no active replacement candidate in team"⟩) ∧
      run.ret = (PullRequest.zero, "") ∧
      run.calls = [Call.GetPullRequestByID "pr-3", Call.GetUserByID "u2",
        Call.GetTeamByName "backend"] ∧
      run.calls.all (fun c => !c.isUpdate) = true ∧
      run.store = store0 :=
  ReassignReviewer_noCandidate svc store0 "pr-3" "u2" fullPR store0 (by decide) (by decide)
    (by decide) ⟨"u2", "", "backend", true⟩ store0 (by decide) backend store0 (by decide)
    (by decide)

/-! ## Uniformity of the selection -/

theorem card_Draws (n : Nat) : Fintype.card (Draws n) = n.factorial := by
  rw [Fintype.card_pi]
  simp only [Fintype.card_fin]
  rw [Fin.prod_univ_eq_prod_range (fun i => i + 1) n, Finset.prod_range_add_one_eq_factorial]

theorem shuffleCalls_ofDraws (random : RandSource) (n : Nat) :
    ∀ i, i < n →
      shuffleCalls (RandSource.ofDraws (fun k : Fin n => random k.val)) i
        = shuffleCalls random i := by
  intro i
  induction i with
  | zero => intro _; rfl
  | succ i ih =>
    intro hi
    simp only [shuffleCalls, ih (by omega), RandSource.ofDraws, hi, dif_pos]

/-- The shuffle uses the random source only at the indices below the length of the
slice. -/
theorem Shuffle_ofDraws (random : RandSource) (candidates : List String) :
    Shuffle (RandSource.ofDraws (fun k : Fin candidates.length => random k.val)) candidates
      = Shuffle random candidates := by
  unfold Shuffle
  by_cases h0 : candidates.length = 0
  · simp [h0, shuffleCalls]
  · rw [shuffleCalls_ofDraws random candidates.length (candidates.length - 1) (by omega)]

theorem selectRandomReviewers_ofDraws (random : RandSource) (candidates : List String)
    (count : Int) :
    selectRandomReviewers random candidates count
      = selectRandomReviewers (RandSource.ofDraws (fun k : Fin candidates.length => random k.val))
          candidates count := by
  simp only [selectRandomReviewers, Shuffle_ofDraws]

/-- On distinct candidates, different draws leave different slices. -/
theorem Shuffle_ofDraws_injective (candidates : List String) (hnd : candidates.Nodup) :
    Function.Injective
      (fun d : Draws candidates.length => Shuffle (RandSource.ofDraws d) candidates) := by
  intro d1 d2 h
  simp only [Shuffle] at h
  funext k
  by_cases hk : k.val = 0
  · apply Fin.ext
    have h1 := (d1 k).isLt
    have h2 := (d2 k).isLt
    omega
  · have hlt := k.isLt
    have hdraw := runSwaps_shuffleCalls_inj (RandSource.ofDraws d1) (RandSource.ofDraws d2)
      (candidates.length - 1) candidates hnd (by omega) h k.val (by omega) (by omega)
    simp only [RandSource.ofDraws, hlt, dif_pos] at hdraw
    exact hdraw

theorem getD_Shuffle_ofDraws_injective (candidates : List String) (hnd : candidates.Nodup) :
    Function.Injective
      (fun d : Draws candidates.length =>
        (Shuffle (RandSource.ofDraws d) candidates).getD []) := by
  intro d1 d2 h
  apply Shuffle_ofDraws_injective candidates hnd
  obtain ⟨l1, hl1, -⟩ := Shuffle_some (RandSource.ofDraws d1) candidates
  obtain ⟨l2, hl2, -⟩ := Shuffle_some (RandSource.ofDraws d2) candidates
  simp only [hl1, hl2, Option.getD_some] at h
  simp only [hl1, hl2, h]

/-- The shuffles of distinct candidates are exactly the rearrangements of the list, each
left by one outcome of the random source. -/
theorem image_Shuffle_ofDraws (candidates : List String) (hnd : candidates.Nodup) :
    (Finset.univ : Finset (Draws candidates.length)).image
        (fun d => (Shuffle (RandSource.ofDraws d) candidates).getD [])
      = candidates.permutations.toFinset := by
  apply Finset.eq_of_subset_of_card_le
  · intro l hl
    obtain ⟨d, -, rfl⟩ := Finset.mem_image.mp hl
    rw [List.mem_toFinset, List.mem_permutations]
    exact getD_Shuffle_perm _ _
  · rw [Finset.card_image_of_injective _ (getD_Shuffle_ofDraws_injective candidates hnd),
      Finset.card_univ, card_Draws,
      List.toFinset_card_of_nodup (List.nodup_permutations _ hnd), List.length_permutations]

/-- Counting outcomes of the random source is counting rearrangements of the list. -/
theorem card_filter_Shuffle (candidates : List String) (hnd : candidates.Nodup)
    (P : List String → Prop) [DecidablePred P] :
    ((Finset.univ : Finset (Draws candidates.length)).filter
        (fun d => P ((Shuffle (RandSource.ofDraws d) candidates).getD []))).card
      = (candidates.permutations.toFinset.filter P).card := by
  rw [← image_Shuffle_ofDraws candidates hnd, Finset.filter_image,
    Finset.card_image_of_injective _ (getD_Shuffle_ofDraws_injective candidates hnd)]

theorem append_diff_self (s q : List String) : (s ++ q).diff s = q := by
  induction s with
  | nil => simp
  | cons a rest ih => simp [List.diff_cons, ih]

theorem append_diff_perm (c s : List String) (hs : s.Nodup) (hsub : ∀ x ∈ s, x ∈ c) :
    (s ++ c.diff s).Perm c := by
  apply List.subperm_append_diff_self_of_count_le
  intro x hx
  rw [List.count_eq_one_of_mem hs hx]
  exact List.count_pos_iff.mpr (hsub x hx)

/-- Among the rearrangements of distinct candidates, those that start with a given
selection of `m` distinct candidates number `(n - m)!`. -/
theorem card_permutations_take (c s : List String) (hc : c.Nodup) (hs : s.Nodup)
    (hsub : ∀ x ∈ s, x ∈ c) :
    (c.permutations.toFinset.filter (fun l => l.take s.length = s)).card
      = (c.length - s.length).factorial := by
  have himg : c.permutations.toFinset.filter (fun l => l.take s.length = s)
      = (c.diff s).permutations.toFinset.image (fun q => s ++ q) := by
    ext l
    simp only [Finset.mem_filter, List.mem_toFinset, List.mem_permutations, Finset.mem_image]
    constructor
    · rintro ⟨hl, ht⟩
      have hsplit : s ++ l.drop s.length = l := by
        have h0 := List.take_append_drop s.length l
        rw [ht] at h0
        exact h0
      refine ⟨l.drop s.length, ?_, hsplit⟩
      have h1 := List.Perm.diff_right s hl
      rw [← hsplit, append_diff_self] at h1
      exact h1
    · rintro ⟨q, hq, rfl⟩
      refine ⟨?_, List.take_left' rfl⟩
      exact (List.Perm.append_left s hq).trans (append_diff_perm c s hs hsub)
  have hlen : (c.diff s).length = c.length - s.length := by
    have := (append_diff_perm c s hs hsub).length_eq
    rw [List.length_append] at this
    omega
  rw [himg, Finset.card_image_of_injective _ (List.append_right_injective s),
    List.toFinset_card_of_nodup (List.nodup_permutations _ (hc.diff)),
    List.length_permutations, hlen]

theorem card_fin_lt (n m : Nat) (h : m ≤ n) :
    (Finset.univ.filter (fun k : Fin n => k.val < m)).card = m := by
  have himg : Finset.univ.filter (fun k : Fin n => k.val < m)
      = (Finset.univ : Finset (Fin m)).image (Fin.castLE h) := by
    ext k
    simp only [Finset.mem_filter, Finset.mem_univ, true_and, Finset.mem_image]
    constructor
    · intro hk
      exact ⟨⟨k.val, hk⟩, Fin.ext rfl⟩
    · rintro ⟨j, rfl⟩
      exact j.isLt
  rw [himg, Finset.card_image_of_injective _ (Fin.castLE_injective h), Finset.card_univ,
    Fintype.card_fin]

/-- The number of permutations that bring slot `i` among the first `m` slots does not
depend on `i`. -/
theorem card_perm_hits_symm (n m : Nat) (i j : Fin n) :
    (Finset.univ.filter (fun p : Equiv.Perm (Fin n) => ∃ k : Fin n, k.val < m ∧ p k = i)).card
      = (Finset.univ.filter
          (fun p : Equiv.Perm (Fin n) => ∃ k : Fin n, k.val < m ∧ p k = j)).card := by
  apply Finset.card_bij (fun p _ => Equiv.swap i j * p)
  · intro p hp
    simp only [Finset.mem_filter, Finset.mem_univ, true_and] at hp ⊢
    obtain ⟨k, hk, hpk⟩ := hp
    exact ⟨k, hk, by simp [hpk]⟩
  · intro p _ q _ hpq
    exact mul_left_cancel hpq
  · intro q hq
    simp only [Finset.mem_filter, Finset.mem_univ, true_and] at hq
    obtain ⟨k, hk, hqk⟩ := hq
    refine ⟨Equiv.swap i j * q, ?_, ?_⟩
    · simp only [Finset.mem_filter, Finset.mem_univ, true_and]
      exact ⟨k, hk, by simp [hqk]⟩
    · simp [← mul_assoc]

theorem card_perm_hits (n m : Nat) (h : m ≤ n) (i : Fin n) :
    (Finset.univ.filter
        (fun p : Equiv.Perm (Fin n) => ∃ k : Fin n, k.val < m ∧ p k = i)).card * n
      = m * n.factorial := by
  have hsum : ∑ j : Fin n, (Finset.univ.filter
      (fun p : Equiv.Perm (Fin n) => ∃ k : Fin n, k.val < m ∧ p k = j)).card
        = n.factorial * m := by
    simp only [Finset.card_filter]
    rw [Finset.sum_comm]
    have hrow : ∀ p : Equiv.Perm (Fin n),
        (∑ j : Fin n, if ∃ k : Fin n, k.val < m ∧ p k = j then 1 else 0) = m := by
      intro p
      rw [← Finset.card_filter]
      have himg : Finset.univ.filter (fun j : Fin n => ∃ k : Fin n, k.val < m ∧ p k = j)
          = (Finset.univ.filter (fun k : Fin n => k.val < m)).image p := by
        ext j
        simp only [Finset.mem_filter, Finset.mem_univ, true_and, Finset.mem_image]
      rw [himg, Finset.card_image_of_injective _ p.injective, card_fin_lt n m h]
    rw [Finset.sum_congr rfl (fun p _ => hrow p), Finset.sum_const, Finset.card_univ,
      Fintype.card_perm, Fintype.card_fin, smul_eq_mul]
  have hconst : ∑ j : Fin n, (Finset.univ.filter
      (fun p : Equiv.Perm (Fin n) => ∃ k : Fin n, k.val < m ∧ p k = j)).card
        = n * (Finset.univ.filter
      (fun p : Equiv.Perm (Fin n) => ∃ k : Fin n, k.val < m ∧ p k = i)).card := by
    rw [Finset.sum_congr rfl (fun j _ => card_perm_hits_symm n m j i), Finset.sum_const,
      Finset.card_univ, Fintype.card_fin, smul_eq_mul]
  rw [hconst] at hsum
  rw [Nat.mul_comm, hsum, Nat.mul_comm]

theorem rearrange_injective (candidates : List String) (hnd : candidates.Nodup) :
    Function.Injective (rearrange candidates) := by
  intro p q hpq
  have hfun := List.ofFn_injective hpq
  apply Equiv.ext
  intro i
  exact List.nodup_iff_injective_get.mp hnd (congrFun hfun i)

theorem image_rearrange (candidates : List String) (hnd : candidates.Nodup) :
    (Finset.univ : Finset (Equiv.Perm (Fin candidates.length))).image (rearrange candidates)
      = candidates.permutations.toFinset := by
  apply Finset.eq_of_subset_of_card_le
  · intro l hl
    obtain ⟨p, -, rfl⟩ := Finset.mem_image.mp hl
    rw [List.mem_toFinset, List.mem_permutations]
    exact rearrange_perm _ _
  · rw [Finset.card_image_of_injective _ (rearrange_injective candidates hnd),
      Finset.card_univ, Fintype.card_perm, Fintype.card_fin,
      List.toFinset_card_of_nodup (List.nodup_permutations _ hnd), List.length_permutations]

theorem card_filter_rearrange (candidates : List String) (hnd : candidates.Nodup)
    (P : List String → Prop) [DecidablePred P] :
    ((Finset.univ : Finset (Equiv.Perm (Fin candidates.length))).filter
        (fun p => P (rearrange candidates p))).card
      = (candidates.permutations.toFinset.filter P).card := by
  rw [← image_rearrange candidates hnd, Finset.filter_image,
    Finset.card_image_of_injective _ (rearrange_injective candidates hnd)]

/-- With distinct candidates, the candidate of slot `i` is among the first `m` of a
rearranged list exactly when the permutation brings slot `i` among the first `m` slots. -/
theorem mem_take_rearrange (candidates : List String) (hnd : candidates.Nodup)
    (p : Equiv.Perm (Fin candidates.length)) (m : Nat) (i : Fin candidates.length) :
    candidates.get i ∈ (rearrange candidates p).take m
      ↔ ∃ k : Fin candidates.length, k.val < m ∧ p k = i := by
  rw [rearrange, List.mem_take_iff_getElem]
  constructor
  · rintro ⟨k, hk, hget⟩
    rw [List.length_ofFn] at hk
    rw [List.getElem_ofFn] at hget
    exact ⟨⟨k, by omega⟩, by simp only; omega, List.nodup_iff_injective_get.mp hnd hget⟩
  · rintro ⟨k, hk, hpk⟩
    refine ⟨k.val, ?_, ?_⟩
    · rw [List.length_ofFn]
      have := k.isLt
      omega
    · rw [List.getElem_ofFn]
      simp [hpk]

/-- Every permutation of the slots is applied by one outcome of the random source, and by
one only. -/
theorem Shuffle_bijective (candidates : List String) (hnd : candidates.Nodup)
    (p : Equiv.Perm (Fin candidates.length)) :
    ∃! d : Draws candidates.length,
      Shuffle (RandSource.ofDraws d) candidates = some (rearrange candidates p) := by
  have hmem : rearrange candidates p ∈ candidates.permutations.toFinset := by
    rw [List.mem_toFinset, List.mem_permutations]
    exact rearrange_perm _ _
  rw [← image_Shuffle_ofDraws candidates hnd] at hmem
  obtain ⟨d, -, hd⟩ := Finset.mem_image.mp hmem
  obtain ⟨l, hl, -⟩ := Shuffle_some (RandSource.ofDraws d) candidates
  have hd1 : Shuffle (RandSource.ofDraws d) candidates = some (rearrange candidates p) := by
    rw [hl] at hd ⊢
    simpa using hd
  refine ⟨d, hd1, ?_⟩
  intro d2 hd2
  exact Shuffle_ofDraws_injective candidates hnd (hd2.trans hd1.symm)

/-- C8. The selection is uniform. The shuffle of `n` candidates draws one number at each
index below `n`, and there are `n!` such outcomes; for distinct candidates every
permutation of the slots is applied by one outcome and one only, so an outcome is the
permutation that the shuffle applies. Every ordered selection of `m = min count n` distinct
candidates is returned for exactly `(n - m)!` outcomes; every candidate is selected for
the same share `m / n` of the outcomes; and for a count of at least one every candidate is
selected for some outcome. -/
theorem selectRandomReviewers_uniform (candidates : List String) (hnd : candidates.Nodup)
    (count : Int) (hcount : 0 ≤ count) :
    Fintype.card (Draws candidates.length) = candidates.length.factorial ∧
    (∀ random : RandSource, selectRandomReviewers random candidates count
      = selectRandomReviewers
          (RandSource.ofDraws (fun k : Fin candidates.length => random k.val))
          candidates count) ∧
    (∀ p : Equiv.Perm (Fin candidates.length), ∃! d : Draws candidates.length,
      Shuffle (RandSource.ofDraws d) candidates = some (rearrange candidates p)) ∧
    (∀ selection : List String, selection.Nodup →
      selection.length = min count.toNat candidates.length →
      (∀ x ∈ selection, x ∈ candidates) →
      (Finset.univ.filter (fun d : Draws candidates.length =>
          selectRandomReviewers (RandSource.ofDraws d) candidates count = some selection)).card
        = (candidates.length - min count.toNat candidates.length).factorial) ∧
    (∀ x ∈ candidates,
      (Finset.univ.filter (fun d : Draws candidates.length =>
          x ∈ (selectRandomReviewers (RandSource.ofDraws d) candidates count).getD [])).card
          * candidates.length
        = min count.toNat candidates.length * candidates.length.factorial) ∧
    (1 ≤ count → ∀ x ∈ candidates, ∃ d : Draws candidates.length,
      x ∈ (selectRandomReviewers (RandSource.ofDraws d) candidates count).getD []) := by
  have hshare : ∀ x ∈ candidates,
      (Finset.univ.filter (fun d : Draws candidates.length =>
          x ∈ (selectRandomReviewers (RandSource.ofDraws d) candidates count).getD [])).card
          * candidates.length
        = min count.toNat candidates.length * candidates.length.factorial := by
    intro x hx
    obtain ⟨i, rfl⟩ := List.mem_iff_get.mp hx
    have hfilter : Finset.univ.filter (fun d : Draws candidates.length =>
          candidates.get i
            ∈ (selectRandomReviewers (RandSource.ofDraws d) candidates count).getD [])
        = Finset.univ.filter (fun d : Draws candidates.length =>
          (fun l : List String =>
              candidates.get i ∈ l.take (min count.toNat candidates.length))
            ((Shuffle (RandSource.ofDraws d) candidates).getD [])) := by
      apply Finset.filter_congr
      intro d _
      rw [selectRandomReviewers_eq _ _ _ hcount, Option.getD_some]
    have hperm : Finset.univ.filter (fun p : Equiv.Perm (Fin candidates.length) =>
          (fun l : List String =>
              candidates.get i ∈ l.take (min count.toNat candidates.length))
            (rearrange candidates p))
        = Finset.univ.filter (fun p : Equiv.Perm (Fin candidates.length) =>
          ∃ k : Fin candidates.length,
            k.val < min count.toNat candidates.length ∧ p k = i) := by
      apply Finset.filter_congr
      intro p _
      exact mem_take_rearrange candidates hnd p _ i
    have h1 := card_filter_Shuffle candidates hnd
      (fun l : List String => candidates.get i ∈ l.take (min count.toNat candidates.length))
    have h2 := card_filter_rearrange candidates hnd
      (fun l : List String => candidates.get i ∈ l.take (min count.toNat candidates.length))
    rw [hfilter, h1, ← h2, hperm]
    exact card_perm_hits _ _ (Nat.min_le_right _ _) i
  refine ⟨card_Draws _, fun random => selectRandomReviewers_ofDraws random candidates count,
    fun p => Shuffle_bijective candidates hnd p, ?_, hshare, ?_⟩
  · intro selection hs hlen hsub
    have hfilter : Finset.univ.filter (fun d : Draws candidates.length =>
          selectRandomReviewers (RandSource.ofDraws d) candidates count = some selection)
        = Finset.univ.filter (fun d : Draws candidates.length =>
          (fun l : List String => l.take selection.length = selection)
            ((Shuffle (RandSource.ofDraws d) candidates).getD [])) := by
      apply Finset.filter_congr
      intro d _
      rw [selectRandomReviewers_eq _ _ _ hcount, Option.some.injEq, hlen]
    have hcard := card_filter_Shuffle candidates hnd
      (fun l : List String => l.take selection.length = selection)
    rw [hfilter, ← hlen, ← card_permutations_take _ _ hnd hs hsub]
    exact hcard
  · intro h1 x hx
    have hpos : 0 < min count.toNat candidates.length * candidates.length.factorial := by
      have hn : 0 < candidates.length := List.length_pos_of_mem hx
      have hm : 0 < min count.toNat candidates.length := by
        have : 0 < count.toNat := by omega
        omega
      exact Nat.mul_pos hm (Nat.factorial_pos _)
    rw [← hshare x hx] at hpos
    have hcard := Nat.pos_of_mul_pos_right hpos
    obtain ⟨d, hd⟩ := Finset.card_pos.mp hcard
    exact ⟨d, (Finset.mem_filter.mp hd).2⟩

theorem selectRandomReviewers_uniform_witness :
    ["u2", "u3", "u5"].Nodup ∧ (0 : Int) ≤ 2 ∧
    (Finset.univ.filter (fun d : Draws ["u2", "u3", "u5"].length =>
        selectRandomReviewers (RandSource.ofDraws d) ["u2", "u3", "u5"] 2
          = some ["u5", "u2"])).card
      = (["u2", "u3", "u5"].length - min (2 : Int).toNat ["u2", "u3", "u5"].length).factorial ∧
    (Finset.univ.filter (fun d : Draws ["u2", "u3", "u5"].length =>
        "u3" ∈ (selectRandomReviewers (RandSource.ofDraws d) ["u2", "u3", "u5"] 2).getD [])).card
        * ["u2", "u3", "u5"].length
      = min (2 : Int).toNat ["u2", "u3", "u5"].length * ["u2", "u3", "u5"].length.factorial :=
  ⟨by decide, by decide,
    (selectRandomReviewers_uniform ["u2", "u3", "u5"] (by decide) 2 (by decide)).2.2.2.1
      ["u5", "u2"] (by decide) (by decide) (by decide),
    (selectRandomReviewers_uniform ["u2", "u3", "u5"] (by decide) 2 (by decide)).2.2.2.2.1
      "u3" (by decide)⟩

/-! ## ReassignReviewer: the replacement -/

theorem mem_set_indexOf (reviewers : List String) (oldUserID id : String)
    (h : oldUserID ∈ reviewers) : id ∈ reviewers.set (reviewers.indexOf oldUserID) id := by
  have hlt : reviewers.indexOf oldUserID < reviewers.length := List.indexOf_lt_length.mpr h
  have hlt2 : reviewers.indexOf oldUserID
      < (reviewers.set (reviewers.indexOf oldUserID) id).length := by
    rw [List.length_set]
    exact hlt
  have hget : (reviewers.set (reviewers.indexOf oldUserID) id)[reviewers.indexOf oldUserID] = id :=
    List.getElem_set_self hlt2
  have hmem := List.getElem_mem hlt2
  rw [hget] at hmem
  exact hmem

theorem not_mem_set_indexOf (reviewers : List String) (oldUserID id : String)
    (hnd : reviewers.Nodup) (hne : id ≠ oldUserID) :
    oldUserID ∉ reviewers.set (reviewers.indexOf oldUserID) id := by
  induction reviewers with
  | nil => simp
  | cons a rest ih =>
    obtain ⟨ha, hrest⟩ := List.nodup_cons.mp hnd
    by_cases hao : a = oldUserID
    · subst hao
      simp only [List.indexOf_cons_self, List.set_cons_zero, List.mem_cons, not_or]
      exact ⟨fun h => hne h.symm, ha⟩
    · rw [List.indexOf_cons_ne _ hao]
      simp only [List.set_cons_succ, List.mem_cons, not_or]
      exact ⟨fun h => hao h.symm, ih hrest⟩

/-- C11. In every successful run of `ReassignReviewer` on a pull request whose reviewer
list has no duplicate ids, over a store whose update returns the pull request it is given,
the reviewer list of the returned pull request contains the returned new reviewer id and
does not contain the old reviewer id any more; in particular the new id is not the old
one. -/
theorem ReassignReviewer_returned_list {σ : Type} (s : PRServiceImpl σ) (st : σ)
    (prID oldUserID : String) (run : Run σ (PullRequest × String))
    (h : ReassignReviewer s st prID oldUserID = some run) (herr : run.err = none)
    (hecho : UpdateEchoes s.prRepo)
    (hnd : ∀ pr st1, s.prRepo.GetPullRequestByID st prID = ((pr, none), st1) →
      pr.AssignedReviewers.Nodup) :
    run.ret.2 ∈ run.ret.1.AssignedReviewers ∧ oldUserID ∉ run.ret.1.AssignedReviewers ∧
      run.ret.2 ≠ oldUserID := by
  obtain ⟨pr, st1, oldReviewer, st2, team, st3, newUserID, updatedPR, st4, hg, -, hin, -, -,
    hmem, -, hupd, rfl⟩ := ReassignReviewer_success_inv s st prID oldUserID run h herr
  obtain ⟨u, -, -, hn1, -, rfl⟩ := (mem_reassignCandidates _ _ _).mp hmem
  have hne : u.UserID ≠ oldUserID := fun he => hn1 (he ▸ hin)
  have hupdated := hecho _ _ _ _ hupd
  subst hupdated
  exact ⟨mem_set_indexOf _ _ _ hin, not_mem_set_indexOf _ _ _ (hnd pr st1 hg) hne, hne⟩

theorem ReassignReviewer_returned_list_witness :
    ReassignReviewer svc store0 "pr-1" "u2"
      = some ⟨(reassignedPR, "u5"), none, store1,
          [Call.GetPullRequestByID "pr-1", Call.GetUserByID "u2", Call.GetTeamByName "backend",
            Call.UpdatePullRequest reassignedPR]⟩ ∧
    "u5" ∈ reassignedPR.AssignedReviewers ∧ "u2" ∉ reassignedPR.AssignedReviewers ∧
      "u5" ≠ "u2" :=
  ⟨by decide,
    ReassignReviewer_returned_list svc store0 "pr-1" "u2"
      ⟨(reassignedPR, "u5"), none, store1,
        [Call.GetPullRequestByID "pr-1", Call.GetUserByID "u2", Call.GetTeamByName "backend",
          Call.UpdatePullRequest reassignedPR]⟩ (by decide) rfl
      (fun st pr updated st1 hu => (memory_prRepo_keepsWrites.update_get st pr updated st1 hu).1)
      (fun pr st1 hg => by
        have hpr : pr = openPR := by
          have h0 : svc.prRepo.GetPullRequestByID store0 "pr-1" = ((openPR, none), store0) := by
            decide
          rw [h0] at hg
          exact (Prod.mk.inj (Prod.mk.inj hg).1).1.symm
        subst hpr
        decide)⟩

/-- C12. In every successful run of `ReassignReviewer`, whatever the random source, the
returned new reviewer id is the id of an active member of the team that was looked up
for the old reviewer (the user resolved from `oldUserID`, not the author); and when one
member alone of that team is active and outside the exclusion set, the returned id is
that member's id. -/
theorem ReassignReviewer_new_reviewer {σ : Type} (s : PRServiceImpl σ) (st : σ)
    (prID oldUserID : String) (run : Run σ (PullRequest × String))
    (h : ReassignReviewer s st prID oldUserID = some run) (herr : run.err = none) :
    ∃ (pr : PullRequest) (st1 : σ) (oldReviewer : User) (st2 : σ) (team : Team) (st3 : σ),
      s.prRepo.GetPullRequestByID st prID = ((pr, none), st1) ∧
      s.teamRepo.GetUserByID st1 oldUserID = ((oldReviewer, none), st2) ∧
      s.teamRepo.GetTeamByName st2 oldReviewer.TeamName = ((team, none), st3) ∧
      (∃ u ∈ team.Members, u.UserID = run.ret.2 ∧ u.IsActive = true) ∧
      (∀ u ∈ team.Members, u.IsActive = true → u.UserID ∉ pr.AssignedReviewers →
        u.UserID ≠ pr.AuthorID →
        (∀ v ∈ team.Members, v.IsActive = true → v.UserID ∉ pr.AssignedReviewers →
          v.UserID ≠ pr.AuthorID → v = u) →
        run.ret.2 = u.UserID) := by
  obtain ⟨pr, st1, oldReviewer, st2, team, st3, newUserID, updatedPR, st4, hg, -, -, hu, ht,
    hmem, -, -, rfl⟩ := ReassignReviewer_success_inv s st prID oldUserID run h herr
  obtain ⟨v, hv, hva, hn1, hn2, rfl⟩ := (mem_reassignCandidates _ _ _).mp hmem
  refine ⟨pr, st1, oldReviewer, st2, team, st3, hg, hu, ht, ⟨v, hv, rfl, hva⟩, ?_⟩
  intro u _ _ _ _ huniq
  rw [huniq v hv hva hn1 hn2]

theorem ReassignReviewer_new_reviewer_witness :
    ReassignReviewer svc store0 "pr-1" "u2"
      = some ⟨(reassignedPR, "u5"), none, store1,
          [Call.GetPullRequestByID "pr-1", Call.GetUserByID "u2", Call.GetTeamByName "backend",
            Call.UpdatePullRequest reassignedPR]⟩ ∧
    ∃ (pr : PullRequest) (st1 : MemStore) (oldReviewer : User) (st2 : MemStore) (team : Team)
      (st3 : MemStore),
      svc.prRepo.GetPullRequestByID store0 "pr-1" = ((pr, none), st1) ∧
      svc.teamRepo.GetUserByID st1 "u2" = ((oldReviewer, none), st2) ∧
      svc.teamRepo.GetTeamByName st2 oldReviewer.TeamName = ((team, none), st3) ∧
      (∃ u ∈ team.Members, u.UserID = "u5" ∧ u.IsActive = true) ∧
      (∀ u ∈ team.Members, u.IsActive = true → u.UserID ∉ pr.AssignedReviewers →
        u.UserID ≠ pr.AuthorID →
        (∀ v ∈ team.Members, v.IsActive = true → v.UserID ∉ pr.AssignedReviewers →
          v.UserID ≠ pr.AuthorID → v = u) →
        "u5" = u.UserID) :=
  ⟨by decide,
    ReassignReviewer_new_reviewer svc store0 "pr-1" "u2"
      ⟨(reassignedPR, "u5"), none, store1,
        [Call.GetPullRequestByID "pr-1", Call.GetUserByID "u2", Call.GetTeamByName "backend",
          Call.UpdatePullRequest reassignedPR]⟩ (by decide) rfl⟩

/-- C19. A successful run of `ReassignReviewer` changes nothing but the reviewer list: the
pull request passed to the store's update has the id, title, author id, status, creation
time and merge time of the pull request read from the store. -/
theorem ReassignReviewer_frame {σ : Type} (s : PRServiceImpl σ) (st : σ)
    (prID oldUserID : String) (run : Run σ (PullRequest × String))
    (h : ReassignReviewer s st prID oldUserID = some run) (herr : run.err = none) :
    ∃ (pr : PullRequest) (st1 : σ) (changed : PullRequest),
      s.prRepo.GetPullRequestByID st prID = ((pr, none), st1) ∧
      run.calls.filter Call.isUpdate = [Call.UpdatePullRequest changed] ∧
      changed.PullRequestID = pr.PullRequestID ∧ changed.PullRequestName = pr.PullRequestName ∧
      changed.AuthorID = pr.AuthorID ∧ changed.Status = pr.Status ∧
      changed.CreatedAt = pr.CreatedAt ∧ changed.MergedAt = pr.MergedAt := by
  obtain ⟨pr, st1, oldReviewer, st2, team, st3, newUserID, updatedPR, st4, hg, -, -, -, -,
    -, -, -, rfl⟩ := ReassignReviewer_success_inv s st prID oldUserID run h herr
  exact ⟨pr, st1,
    ({ pr with AssignedReviewers :=
        (pr.AssignedReviewers.set (pr.AssignedReviewers.indexOf oldUserID) newUserID) } :
      PullRequest),
    hg, by simp [Call.isUpdate], rfl, rfl, rfl, rfl, rfl, rfl⟩

theorem ReassignReviewer_frame_witness :
    ReassignReviewer svc store0 "pr-1" "u2"
      = some ⟨(reassignedPR, "u5"), none, store1,
          [Call.GetPullRequestByID "pr-1", Call.GetUserByID "u2", Call.GetTeamByName "backend",
            Call.UpdatePullRequest reassignedPR]⟩ ∧
    ∃ (pr : PullRequest) (st1 : MemStore) (changed : PullRequest),
      svc.prRepo.GetPullRequestByID store0 "pr-1" = ((pr, none), st1) ∧
      [Call.UpdatePullRequest reassignedPR] = [Call.UpdatePullRequest changed] ∧
      changed.PullRequestID = pr.PullRequestID ∧ changed.PullRequestName = pr.PullRequestName ∧
      changed.AuthorID = pr.AuthorID ∧ changed.Status = pr.Status ∧
      changed.CreatedAt = pr.CreatedAt ∧ changed.MergedAt = pr.MergedAt :=
  ⟨by decide,
    ReassignReviewer_frame svc store0 "pr-1" "u2"
      ⟨(reassignedPR, "u5"), none, store1,
        [Call.GetPullRequestByID "pr-1", Call.GetUserByID "u2", Call.GetTeamByName "backend",
          Call.UpdatePullRequest reassignedPR]⟩ (by decide) rfl⟩

/-! ## Every run, by cases -/

/-- The run of `CreateAndAssignReviewers` when the lookup of the author fails. -/
theorem CreateAndAssignReviewers_userError_run {σ : Type} (s : PRServiceImpl σ) (now : Time)
    (st : σ) (prID prName authorID : String) (author : User) (e : GoError) (st1 : σ)
    (hu : s.teamRepo.GetUserByID st authorID = ((author, some e), st1)) :
    CreateAndAssignReviewers s now st prID prName authorID
      = some ⟨PullRequest.zero, some e, st1, [Call.GetUserByID authorID]⟩ := by
  simp only [CreateAndAssignReviewers, hu]

/-- The run of `CreateAndAssignReviewers` when the lookup of the team fails. -/
theorem CreateAndAssignReviewers_teamError_run {σ : Type} (s : PRServiceImpl σ) (now : Time)
    (st : σ) (prID prName authorID : String) (author : User) (st1 : σ)
    (hu : s.teamRepo.GetUserByID st authorID = ((author, none), st1))
    (team : Team) (e : GoError) (st2 : σ)
    (ht : s.teamRepo.GetTeamByName st1 author.TeamName = ((team, some e), st2)) :
    CreateAndAssignReviewers s now st prID prName authorID
      = some ⟨PullRequest.zero, some e, st2,
          [Call.GetUserByID authorID, Call.GetTeamByName author.TeamName]⟩ := by
  simp only [CreateAndAssignReviewers, hu, ht]

/-- The run of `MergePullRequest` when the read fails. -/
theorem MergePullRequest_getError_run {σ : Type} (s : PRServiceImpl σ) (now : Time) (st : σ)
    (prID : String) (pr : PullRequest) (e : GoError) (st1 : σ)
    (hg : s.prRepo.GetPullRequestByID st prID = ((pr, some e), st1)) :
    MergePullRequest s now st prID
      = ⟨PullRequest.zero, some e, st1, [Call.GetPullRequestByID prID]⟩ := by
  simp only [MergePullRequest, hg]

/-- The run of `ReassignReviewer` when the read fails. -/
theorem ReassignReviewer_getError_run {σ : Type} (s : PRServiceImpl σ) (st : σ)
    (prID oldUserID : String) (pr : PullRequest) (e : GoError) (st1 : σ)
    (hg : s.prRepo.GetPullRequestByID st prID = ((pr, some e), st1)) :
    ReassignReviewer s st prID oldUserID
      = some ⟨(PullRequest.zero, ""), some e, st1, [Call.GetPullRequestByID prID]⟩ := by
  simp only [ReassignReviewer, hg]

/-- Every run of `CreateAndAssignReviewers` returns, and a pull request it passes to the
store's create carries the caller's id, title and author id, the status OPEN, the creation
time `now`, no merge time and reviewers selected from the candidates of a team. -/
theorem CreateAndAssignReviewers_total {σ : Type} (s : PRServiceImpl σ) (now : Time) (st : σ)
    (prID prName authorID : String) :
    ∃ run, CreateAndAssignReviewers s now st prID prName authorID = some run ∧
      ∀ p, Call.CreatePullRequest p ∈ run.calls →
        ∃ (team : Team) (reviewers : List String),
          selectRandomReviewers s.random (createCandidates team.Members authorID) 2
            = some reviewers ∧
          p = { PullRequestID := prID, PullRequestName := prName, AuthorID := authorID,
                Status := StatusOpen, AssignedReviewers := reviewers,
                CreatedAt := some now, MergedAt := none } := by
  rcases hu : s.teamRepo.GetUserByID st authorID with ⟨⟨author, e⟩, st1⟩
  cases e with
  | some e =>
    exact ⟨_, CreateAndAssignReviewers_userError_run s now st prID prName authorID author e st1 hu,
      by simp⟩
  | none =>
  rcases ht : s.teamRepo.GetTeamByName st1 author.TeamName with ⟨⟨team, e⟩, st2⟩
  cases e with
  | some e =>
    exact ⟨_, CreateAndAssignReviewers_teamError_run s now st prID prName authorID author st1 hu
      team e st2 ht, by simp⟩
  | none =>
  obtain ⟨reviewers, hsel, -⟩ :=
    selectRandomReviewers_returns s.random (createCandidates team.Members authorID) 2 (by decide)
  rcases hc : s.prRepo.CreatePullRequest st2
      { PullRequestID := prID, PullRequestName := prName, AuthorID := authorID,
        Status := StatusOpen, AssignedReviewers := reviewers,
        CreatedAt := some now, MergedAt := none } with ⟨⟨pr, err⟩, st3⟩
  refine ⟨_, CreateAndAssignReviewers_run s now st prID prName authorID author st1 team st2
      reviewers hu ht hsel pr err st3 hc, ?_⟩
  intro p hp
  simp only [List.mem_cons, List.mem_singleton, List.not_mem_nil, or_false, reduceCtorEq,
    false_or, Call.CreatePullRequest.injEq] at hp
  exact ⟨team, reviewers, hsel, hp⟩

/-- A pull request that `MergePullRequest` passes to the store's update is the one it
read, not MERGED, with the status MERGED and the merge time `now`. -/
theorem MergePullRequest_update_call {σ : Type} (s : PRServiceImpl σ) (now : Time) (st : σ)
    (prID : String) (p : PullRequest)
    (hp : Call.UpdatePullRequest p ∈ (MergePullRequest s now st prID).calls) :
    ∃ read st1, s.prRepo.GetPullRequestByID st prID = ((read, none), st1) ∧
      read.Status ≠ StatusMerged ∧
      p = { read with Status := StatusMerged, MergedAt := some now } := by
  rcases hg : s.prRepo.GetPullRequestByID st prID with ⟨⟨read, e⟩, st1⟩
  cases e with
  | some e =>
    rw [MergePullRequest_getError_run s now st prID read e st1 hg] at hp
    simp at hp
  | none =>
  by_cases hs : read.Status = StatusMerged
  · rw [MergePullRequest_merged_run s now st prID read st1 hg hs] at hp
    simp at hp
  · rcases hupd : s.prRepo.UpdatePullRequest st1
        { read with Status := StatusMerged, MergedAt := some now } with ⟨⟨updated, err⟩, st2⟩
    rw [MergePullRequest_open_run s now st prID read st1 hg hs updated err st2 hupd] at hp
    simp only [List.mem_cons, List.mem_singleton, List.not_mem_nil, or_false, reduceCtorEq,
      false_or, Call.UpdatePullRequest.injEq] at hp
    exact ⟨read, st1, rfl, hs, hp⟩

/-- Every run of `ReassignReviewer` returns: no index is out of range. Either it makes no
call of the store's update, or its calls are the three reads and one update, of the pull
request read with a candidate of the team written over the first occurrence of the old
reviewer. -/
theorem ReassignReviewer_total {σ : Type} (s : PRServiceImpl σ) (st : σ)
    (prID oldUserID : String) :
    ∃ run, ReassignReviewer s st prID oldUserID = some run ∧
      ((∀ c ∈ run.calls, c.isUpdate = false) ∨
        ∃ (pr : PullRequest) (st1 : σ) (oldReviewer : User) (st2 : σ) (team : Team) (st3 : σ)
          (newUserID : String),
          s.prRepo.GetPullRequestByID st prID = ((pr, none), st1) ∧
          pr.Status ≠ StatusMerged ∧ oldUserID ∈ pr.AssignedReviewers ∧
          s.teamRepo.GetUserByID st1 oldUserID = ((oldReviewer, none), st2) ∧
          s.teamRepo.GetTeamByName st2 oldReviewer.TeamName = ((team, none), st3) ∧
          newUserID ∈ reassignCandidates team.Members pr ∧
          run.calls = [Call.GetPullRequestByID prID, Call.GetUserByID oldUserID,
            Call.GetTeamByName oldReviewer.TeamName,
            Call.UpdatePullRequest
              { pr with AssignedReviewers :=
                  (pr.AssignedReviewers.set (pr.AssignedReviewers.indexOf oldUserID)
                    newUserID) }]) := by
  rcases hg : s.prRepo.GetPullRequestByID st prID with ⟨⟨pr, e⟩, st1⟩
  cases e with
  | some e =>
    exact ⟨_, ReassignReviewer_getError_run s st prID oldUserID pr e st1 hg,
      Or.inl (by simp [Call.isUpdate])⟩
  | none =>
  by_cases hs : pr.Status = StatusMerged
  · exact ⟨_, ReassignReviewer_merged_run s st prID oldUserID pr st1 hg hs,
      Or.inl (by simp [Call.isUpdate])⟩
  by_cases hin : oldUserID ∈ pr.AssignedReviewers
  swap
  · exact ⟨_, ReassignReviewer_notAssigned_run s st prID oldUserID pr st1 hg hs hin,
      Or.inl (by simp [Call.isUpdate])⟩
  rcases hu : s.teamRepo.GetUserByID st1 oldUserID with ⟨⟨oldReviewer, e⟩, st2⟩
  cases e with
  | some e =>
    exact ⟨_, ReassignReviewer_userError_run s st prID oldUserID pr st1 hg hs hin oldReviewer e
      st2 hu, Or.inl (by simp [Call.isUpdate])⟩
  | none =>
  rcases ht : s.teamRepo.GetTeamByName st2 oldReviewer.TeamName with ⟨⟨team, e⟩, st3⟩
  cases e with
  | some e =>
    exact ⟨_, ReassignReviewer_teamError_run s st prID oldUserID pr st1 hg hs hin oldReviewer st2
      hu team e st3 ht, Or.inl (by simp [Call.isUpdate])⟩
  | none =>
  by_cases hc : reassignCandidates team.Members pr = []
  · exact ⟨_, ReassignReviewer_noCandidate_run s st prID oldUserID pr st1 hg hs hin oldReviewer
      st2 hu team st3 ht hc, Or.inl (by simp [Call.isUpdate])⟩
  obtain ⟨newUserID, hmem, -, hrun⟩ :=
    ReassignReviewer_update_run s st prID oldUserID pr st1 hg hs hin oldReviewer st2 hu team st3
      ht hc
  rcases hupd : s.prRepo.UpdatePullRequest
      (s.prRepo.ReviewerSlotWrite st3 prID (pr.AssignedReviewers.indexOf oldUserID) newUserID)
      { pr with AssignedReviewers :=
          (pr.AssignedReviewers.set (pr.AssignedReviewers.indexOf oldUserID) newUserID) }
    with ⟨⟨updatedPR, err⟩, st4⟩
  exact ⟨_, hrun updatedPR err st4 hupd,
    Or.inr ⟨pr, st1, oldReviewer, st2, team, st3, newUserID, rfl, hs, hin, hu, ht, hmem, rfl⟩⟩

/-- A pull request that `ReassignReviewer` passes to the store's update is the one it
read with a candidate written over the first occurrence of the old reviewer. -/
theorem ReassignReviewer_update_call {σ : Type} (s : PRServiceImpl σ) (st : σ)
    (prID oldUserID : String) (run : Run σ (PullRequest × String))
    (h : ReassignReviewer s st prID oldUserID = some run) (p : PullRequest)
    (hp : Call.UpdatePullRequest p ∈ run.calls) :
    ∃ (read : PullRequest) (st1 : σ) (newUserID : String),
      s.prRepo.GetPullRequestByID st prID = ((read, none), st1) ∧
      oldUserID ∈ read.AssignedReviewers ∧
      newUserID ∉ read.AssignedReviewers ∧ newUserID ≠ read.AuthorID ∧
      p = { read with AssignedReviewers :=
              (read.AssignedReviewers.set (read.AssignedReviewers.indexOf oldUserID)
                newUserID) } := by
  obtain ⟨run1, hrun1, hcases⟩ := ReassignReviewer_total s st prID oldUserID
  rw [h, Option.some.injEq] at hrun1
  subst hrun1
  rcases hcases with hno | ⟨pr, st1, oldReviewer, st2, team, st3, newUserID, hg, -, hin, -, -,
    hmem, hcalls⟩
  · have := hno _ hp
    simp [Call.isUpdate] at this
  · obtain ⟨u, -, -, hn1, hn2, rfl⟩ := (mem_reassignCandidates _ _ _).mp hmem
    rw [hcalls] at hp
    simp only [List.mem_cons, List.mem_singleton, List.not_mem_nil, or_false, reduceCtorEq,
      false_or, Call.UpdatePullRequest.injEq] at hp
    exact ⟨pr, st1, u.UserID, hg, hin, hn1, hn2, hp⟩

/-! ## Invariants of the pull requests written -/

theorem nodup_createCandidates (members : List User) (authorID : String)
    (h : (members.map (fun u => u.UserID)).Nodup) :
    (createCandidates members authorID).Nodup :=
  h.sublist ((List.filter_sublist members).map _)

theorem selectRandomReviewers_nodup (random : RandSource) (candidates : List String)
    (count : Int) (hcount : 0 ≤ count) (r : List String)
    (h : selectRandomReviewers random candidates count = some r) (hnd : candidates.Nodup) :
    r.Nodup := by
  rw [selectRandomReviewers_eq random candidates count hcount, Option.some.injEq] at h
  subst h
  exact ((Shuffle_perm random candidates).nodup_iff.mpr hnd).sublist (List.take_sublist _ _)

theorem not_mem_set (reviewers : List String) (i : Nat) (id y : String)
    (hy : y ∉ reviewers) (hne : y ≠ id) : y ∉ reviewers.set i id := by
  intro hmem
  rcases List.mem_or_eq_of_mem_set hmem with h1 | h1
  · exact hy h1
  · exact hne h1

theorem nodup_set (reviewers : List String) (i : Nat) (id : String)
    (hnd : reviewers.Nodup) (hid : id ∉ reviewers) : (reviewers.set i id).Nodup := by
  induction reviewers generalizing i with
  | nil => simp
  | cons a rest ih =>
    obtain ⟨ha, hrest⟩ := List.nodup_cons.mp hnd
    have hne : a ≠ id := fun h => hid (h ▸ List.mem_cons_self _ _)
    have hid2 : id ∉ rest := fun h => hid (List.mem_cons_of_mem _ h)
    cases i with
    | zero =>
      rw [List.set_cons_zero]
      exact List.nodup_cons.mpr ⟨hid2, hrest⟩
    | succ i =>
      rw [List.set_cons_succ]
      exact List.nodup_cons.mpr ⟨not_mem_set rest i id a ha hne, ih i hrest hid2⟩

theorem memory_update_ret (st : MemStore) (p : PullRequest) :
    (memory.prRepo.UpdatePullRequest st p).1.1 = p ∨
      (memory.prRepo.UpdatePullRequest st p).1.1 = PullRequest.zero := by
  simp only [memory.prRepo, memory.updatePullRequest]
  split
  · exact Or.inl rfl
  · exact Or.inr rfl

/-- C13. The reviewer invariant (the author is not a reviewer, no reviewer twice) holds
of every pull request the service writes: of the one `CreateAndAssignReviewers` builds
when the members of the team have pairwise distinct user ids, and of the one that
`ReassignReviewer` or `MergePullRequest` passes to the store's update when it holds of the
one read. -/
theorem reviewers_invariant {σ : Type} (s : PRServiceImpl σ) :
    (∀ (now : Time) (st : σ) (prID prName authorID : String) (author : User) (st1 : σ)
        (team : Team) (st2 : σ),
      s.teamRepo.GetUserByID st authorID = ((author, none), st1) →
      s.teamRepo.GetTeamByName st1 author.TeamName = ((team, none), st2) →
      (team.Members.map (fun u => u.UserID)).Nodup →
      ∃ run newPR, CreateAndAssignReviewers s now st prID prName authorID = some run ∧
        run.calls.filter Call.isCreate = [Call.CreatePullRequest newPR] ∧
        ReviewersValid newPR) ∧
    (∀ (st : σ) (prID oldUserID : String) (run : Run σ (PullRequest × String))
        (read : PullRequest) (st1 : σ),
      ReassignReviewer s st prID oldUserID = some run →
      s.prRepo.GetPullRequestByID st prID = ((read, none), st1) → ReviewersValid read →
      ∀ p, Call.UpdatePullRequest p ∈ run.calls → ReviewersValid p) ∧
    (∀ (now : Time) (st : σ) (prID : String) (read : PullRequest) (st1 : σ),
      s.prRepo.GetPullRequestByID st prID = ((read, none), st1) → ReviewersValid read →
      ∀ p, Call.UpdatePullRequest p ∈ (MergePullRequest s now st prID).calls →
        ReviewersValid p) := by
  refine ⟨?_, ?_, ?_⟩
  · intro now st prID prName authorID author st1 team st2 hu ht hnd
    obtain ⟨reviewers, hsel, -, hmem⟩ :=
      selectRandomReviewers_returns s.random (createCandidates team.Members authorID) 2
        (by decide)
    rcases hc : s.prRepo.CreatePullRequest st2
        { PullRequestID := prID, PullRequestName := prName, AuthorID := authorID,
          Status := StatusOpen, AssignedReviewers := reviewers,
          CreatedAt := some now, MergedAt := none } with ⟨⟨pr, err⟩, st3⟩
    refine ⟨_, PullRequest.mk prID prName authorID StatusOpen reviewers (some now) none,
      CreateAndAssignReviewers_run s now st prID prName authorID author st1 team st2
        reviewers hu ht hsel pr err st3 hc, by simp [Call.isCreate], ?_, ?_⟩
    · intro hin
      obtain ⟨u, -, -, hne, hid⟩ := (mem_createCandidates _ _ _).mp (hmem authorID hin)
      exact hne hid
    · exact selectRandomReviewers_nodup s.random _ 2 (by decide) reviewers hsel
        (nodup_createCandidates team.Members authorID hnd)
  · intro st prID oldUserID run read st1 h hg hvalid p hp
    obtain ⟨read1, st1a, newUserID, hg1, -, hn1, hn2, rfl⟩ :=
      ReassignReviewer_update_call s st prID oldUserID run h p hp
    rw [hg] at hg1
    obtain rfl : read = read1 := (Prod.mk.inj (Prod.mk.inj hg1).1).1
    exact ⟨not_mem_set _ _ _ _ hvalid.1 (fun he => hn2 he.symm), nodup_set _ _ _ hvalid.2 hn1⟩
  · intro now st prID read st1 hg hvalid p hp
    obtain ⟨read1, st1a, hg1, -, rfl⟩ := MergePullRequest_update_call s now st prID p hp
    rw [hg] at hg1
    obtain rfl : read = read1 := (Prod.mk.inj (Prod.mk.inj hg1).1).1
    exact hvalid

theorem reviewers_invariant_witness :
    (∃ run newPR, CreateAndAssignReviewers svc 20 store0 "pr-9" "N" "u1" = some run ∧
        run.calls.filter Call.isCreate = [Call.CreatePullRequest newPR] ∧
        ReviewersValid newPR) ∧
    ReviewersValid reassignedPR ∧
    ReviewersValid { openPR with Status := StatusMerged, MergedAt := some 30 } :=
  ⟨(reviewers_invariant svc).1 20 store0 "pr-9" "N" "u1" ⟨"u1", "", "backend", true⟩ store0
      backend store0 (by decide) (by decide) (by decide),
    (reviewers_invariant svc).2.1 store0 "pr-1" "u2"
      ⟨(reassignedPR, "u5"), none, store1,
        [Call.GetPullRequestByID "pr-1", Call.GetUserByID "u2", Call.GetTeamByName "backend",
          Call.UpdatePullRequest reassignedPR]⟩ openPR store0 (by decide) (by decide) (by decide)
      reassignedPR (by decide),
    (reviewers_invariant svc).2.2 30 store0 "pr-1" openPR store0 (by decide) (by decide)
      { openPR with Status := StatusMerged, MergedAt := some 30 } (by decide)⟩

/-- C14, as stated, fails for what `MergePullRequest` returns: over a store whose update
hands back the pull request with the merge time cleared, the pull request read satisfies
the merge-time invariant and the one returned, MERGED without a merge time, does not. -/
theorem MergePullRequest_returns_unstamped :
    clearingSvc.prRepo.GetPullRequestByID store0 "pr-1" = ((openPR, none), store0) ∧
    MergeStamped openPR ∧
    (MergePullRequest clearingSvc 30 store0 "pr-1").err = none ∧
    (MergePullRequest clearingSvc 30 store0 "pr-1").ret
      = { openPR with Status := StatusMerged, MergedAt := none } ∧
    ¬ MergeStamped (MergePullRequest clearingSvc 30 store0 "pr-1").ret := by
  decide

/-- C14, amended. The merge-time invariant (the merge time is present exactly when the
status is MERGED) holds of every pull request the service writes: of the one
`CreateAndAssignReviewers` builds; of the one `MergePullRequest` passes to the store's
update; of the one `MergePullRequest` returns when it holds of the one read and either
that one is MERGED, and is returned as it is, or the store's update hands back the pull
request it was given or the empty one; and of the one `ReassignReviewer` passes to the
store's update when it holds of the one read. -/
theorem mergeStamp_invariant {σ : Type} (s : PRServiceImpl σ) :
    (∀ (now : Time) (st : σ) (prID prName authorID : String) (run : Run σ PullRequest),
      CreateAndAssignReviewers s now st prID prName authorID = some run →
      ∀ p, Call.CreatePullRequest p ∈ run.calls → MergeStamped p) ∧
    (∀ (now : Time) (st : σ) (prID : String) (p : PullRequest),
      Call.UpdatePullRequest p ∈ (MergePullRequest s now st prID).calls → MergeStamped p) ∧
    (∀ (now : Time) (st : σ) (prID : String) (read : PullRequest) (st1 : σ),
      s.prRepo.GetPullRequestByID st prID = ((read, none), st1) → MergeStamped read →
      (read.Status = StatusMerged ∨
        ∀ st2 p, (s.prRepo.UpdatePullRequest st2 p).1.1 = p ∨
          (s.prRepo.UpdatePullRequest st2 p).1.1 = PullRequest.zero) →
      MergeStamped (MergePullRequest s now st prID).ret) ∧
    (∀ (st : σ) (prID oldUserID : String) (run : Run σ (PullRequest × String))
        (read : PullRequest) (st1 : σ),
      ReassignReviewer s st prID oldUserID = some run →
      s.prRepo.GetPullRequestByID st prID = ((read, none), st1) → MergeStamped read →
      ∀ p, Call.UpdatePullRequest p ∈ run.calls → MergeStamped p) := by
  have hmerged : ∀ (read : PullRequest) (now : Time),
      MergeStamped { read with Status := StatusMerged, MergedAt := some now } := by
    intro read now
    simp [MergeStamped]
  refine ⟨?_, ?_, ?_, ?_⟩
  · intro now st prID prName authorID run h p hp
    obtain ⟨run1, hrun1, hcalls⟩ := CreateAndAssignReviewers_total s now st prID prName authorID
    rw [h, Option.some.injEq] at hrun1
    subst hrun1
    obtain ⟨team, reviewers, -, rfl⟩ := hcalls p hp
    simp only [MergeStamped, Option.isSome_none, Bool.false_eq_true, false_iff]
    decide
  · intro now st prID p hp
    obtain ⟨read, st1, -, -, rfl⟩ := MergePullRequest_update_call s now st prID p hp
    exact hmerged read now
  · intro now st prID read st1 hg hread hcond
    by_cases hs : read.Status = StatusMerged
    · rw [MergePullRequest_merged_run s now st prID read st1 hg hs]
      exact hread
    · rcases hcond with hm | hecho
      · exact absurd hm hs
      · rcases hupd : s.prRepo.UpdatePullRequest st1
            { read with Status := StatusMerged, MergedAt := some now } with ⟨⟨updated, err⟩, st2⟩
        rw [MergePullRequest_open_run s now st prID read st1 hg hs updated err st2 hupd]
        have hret := hecho st1 { read with Status := StatusMerged, MergedAt := some now }
        rw [hupd] at hret
        rcases hret with h1 | h1
        · simp only at h1
          subst h1
          exact hmerged read now
        · simp only at h1
          subst h1
          simp only [MergeStamped]
          decide
  · intro st prID oldUserID run read st1 h hg hread p hp
    obtain ⟨read1, st1a, newUserID, hg1, -, -, -, rfl⟩ :=
      ReassignReviewer_update_call s st prID oldUserID run h p hp
    rw [hg] at hg1
    obtain rfl : read = read1 := (Prod.mk.inj (Prod.mk.inj hg1).1).1
    exact hread

theorem mergeStamp_invariant_witness :
    CreateAndAssignReviewers svc 20 store0 "pr-9" "N" "u1"
      = some ⟨createdPR, none, store2,
          [Call.GetUserByID "u1", Call.GetTeamByName "backend",
            Call.CreatePullRequest createdPR]⟩ ∧
    MergeStamped createdPR ∧
    MergeStamped { openPR with Status := StatusMerged, MergedAt := some 30 } ∧
    MergeStamped (MergePullRequest svc 30 store0 "pr-1").ret ∧
    MergeStamped reassignedPR :=
  ⟨by decide,
    (mergeStamp_invariant svc).1 20 store0 "pr-9" "N" "u1"
      ⟨createdPR, none, store2,
        [Call.GetUserByID "u1", Call.GetTeamByName "backend", Call.CreatePullRequest createdPR]⟩
      (by decide) createdPR (by decide),
    (mergeStamp_invariant svc).2.1 30 store0 "pr-1"
      { openPR with Status := StatusMerged, MergedAt := some 30 } (by decide),
    (mergeStamp_invariant svc).2.2.1 30 store0 "pr-1" openPR store0 (by decide) (by decide)
      (Or.inr memory_update_ret),
    (mergeStamp_invariant svc).2.2.2 store0 "pr-1" "u2"
      ⟨(reassignedPR, "u5"), none, store1,
        [Call.GetPullRequestByID "pr-1", Call.GetUserByID "u2", Call.GetTeamByName "backend",
          Call.UpdatePullRequest reassignedPR]⟩ openPR store0 (by decide) (by decide) (by decide)
      reassignedPR (by decide)⟩

/-! ## Errors of the store -/

/-- C15, as stated, fails: when the store's create fails and hands back a pull request
with its error, `CreateAndAssignReviewers` returns that error together with that pull
request, not the empty one; and so does `MergePullRequest` for a failing update. -/
theorem store_error_with_pull_request :
    failingSvc.prRepo.CreatePullRequest store0 createdPR
      = ((createdPR, some (GoError.other "create failed")), store0) ∧
    CreateAndAssignReviewers failingSvc 20 store0 "pr-9" "N" "u1"
      = some ⟨createdPR, some (GoError.other "create failed"), store0,
          [Call.GetUserByID "u1", Call.GetTeamByName "backend",
            Call.CreatePullRequest createdPR]⟩ ∧
    createdPR ≠ PullRequest.zero ∧
    (MergePullRequest failingSvc 30 store0 "pr-1").err = some (GoError.other "update failed") ∧
    (MergePullRequest failingSvc 30 store0 "pr-1").ret ≠ PullRequest.zero := by
  decide

/-- C15, amended. When a store call returns an error, the operation returns exactly that
error and makes no further store call, so a failed lookup is followed by no write. The
pull request returned with the error is the empty one when a lookup fails and when the
update of `ReassignReviewer` fails; when the create of `CreateAndAssignReviewers` or the
update of `MergePullRequest` fails, it is the pull request the store returned with the
error. The failing create is called with the pull request built from the selected
reviewers, and the failing update of `ReassignReviewer` with the pull request read, the
selected candidate written over the old reviewer, on the store as the assignment to the
reviewer slot left it. -/
theorem store_errors_propagate {σ : Type} (s : PRServiceImpl σ) :
    (∀ (now : Time) (st : σ) (prID prName authorID : String) (author : User) (e : GoError)
        (st1 : σ),
      s.teamRepo.GetUserByID st authorID = ((author, some e), st1) →
      CreateAndAssignReviewers s now st prID prName authorID
        = some ⟨PullRequest.zero, some e, st1, [Call.GetUserByID authorID]⟩) ∧
    (∀ (now : Time) (st : σ) (prID prName authorID : String) (author : User) (st1 : σ)
        (team : Team) (e : GoError) (st2 : σ),
      s.teamRepo.GetUserByID st authorID = ((author, none), st1) →
      s.teamRepo.GetTeamByName st1 author.TeamName = ((team, some e), st2) →
      CreateAndAssignReviewers s now st prID prName authorID
        = some ⟨PullRequest.zero, some e, st2,
            [Call.GetUserByID authorID, Call.GetTeamByName author.TeamName]⟩) ∧
    (∀ (now : Time) (st : σ) (prID prName authorID : String) (author : User) (st1 : σ)
        (team : Team) (st2 : σ),
      s.teamRepo.GetUserByID st authorID = ((author, none), st1) →
      s.teamRepo.GetTeamByName st1 author.TeamName = ((team, none), st2) →
      ∃ reviewers : List String,
        selectRandomReviewers s.random (createCandidates team.Members authorID) 2
          = some reviewers ∧
        ∀ (pr : PullRequest) (e : GoError) (st3 : σ),
          s.prRepo.CreatePullRequest st2
            { PullRequestID := prID, PullRequestName := prName, AuthorID := authorID,
              Status := StatusOpen, AssignedReviewers := reviewers,
              CreatedAt := some now, MergedAt := none } = ((pr, some e), st3) →
          CreateAndAssignReviewers s now st prID prName authorID
            = some ⟨pr, some e, st3,
                [Call.GetUserByID authorID, Call.GetTeamByName author.TeamName,
                  Call.CreatePullRequest
                    { PullRequestID := prID, PullRequestName := prName, AuthorID := authorID,
                      Status := StatusOpen, AssignedReviewers := reviewers,
                      CreatedAt := some now, MergedAt := none }]⟩) ∧
    (∀ (now : Time) (st : σ) (prID : String) (pr : PullRequest) (e : GoError) (st1 : σ),
      s.prRepo.GetPullRequestByID st prID = ((pr, some e), st1) →
      MergePullRequest s now st prID
        = ⟨PullRequest.zero, some e, st1, [Call.GetPullRequestByID prID]⟩) ∧
    (∀ (now : Time) (st : σ) (prID : String) (pr : PullRequest) (st1 : σ)
        (updated : PullRequest) (e : GoError) (st2 : σ),
      s.prRepo.GetPullRequestByID st prID = ((pr, none), st1) → pr.Status ≠ StatusMerged →
      s.prRepo.UpdatePullRequest st1 { pr with Status := StatusMerged, MergedAt := some now }
        = ((updated, some e), st2) →
      MergePullRequest s now st prID
        = ⟨updated, some e, st2, [Call.GetPullRequestByID prID,
            Call.UpdatePullRequest { pr with Status := StatusMerged, MergedAt := some now }]⟩) ∧
    (∀ (st : σ) (prID oldUserID : String) (pr : PullRequest) (e : GoError) (st1 : σ),
      s.prRepo.GetPullRequestByID st prID = ((pr, some e), st1) →
      ReassignReviewer s st prID oldUserID
        = some ⟨(PullRequest.zero, ""), some e, st1, [Call.GetPullRequestByID prID]⟩) ∧
    (∀ (st : σ) (prID oldUserID : String) (pr : PullRequest) (st1 : σ) (oldReviewer : User)
        (e : GoError) (st2 : σ),
      s.prRepo.GetPullRequestByID st prID = ((pr, none), st1) → pr.Status ≠ StatusMerged →
      oldUserID ∈ pr.AssignedReviewers →
      s.teamRepo.GetUserByID st1 oldUserID = ((oldReviewer, some e), st2) →
      ReassignReviewer s st prID oldUserID
        = some ⟨(PullRequest.zero, ""), some e, st2,
            [Call.GetPullRequestByID prID, Call.GetUserByID oldUserID]⟩) ∧
    (∀ (st : σ) (prID oldUserID : String) (pr : PullRequest) (st1 : σ) (oldReviewer : User)
        (st2 : σ) (team : Team) (e : GoError) (st3 : σ),
      s.prRepo.GetPullRequestByID st prID = ((pr, none), st1) → pr.Status ≠ StatusMerged →
      oldUserID ∈ pr.AssignedReviewers →
      s.teamRepo.GetUserByID st1 oldUserID = ((oldReviewer, none), st2) →
      s.teamRepo.GetTeamByName st2 oldReviewer.TeamName = ((team, some e), st3) →
      ReassignReviewer s st prID oldUserID
        = some ⟨(PullRequest.zero, ""), some e, st3,
            [Call.GetPullRequestByID prID, Call.GetUserByID oldUserID,
              Call.GetTeamByName oldReviewer.TeamName]⟩) ∧
    (∀ (st : σ) (prID oldUserID : String) (pr : PullRequest) (st1 : σ) (oldReviewer : User)
        (st2 : σ) (team : Team) (st3 : σ),
      s.prRepo.GetPullRequestByID st prID = ((pr, none), st1) → pr.Status ≠ StatusMerged →
      oldUserID ∈ pr.AssignedReviewers →
      s.teamRepo.GetUserByID st1 oldUserID = ((oldReviewer, none), st2) →
      s.teamRepo.GetTeamByName st2 oldReviewer.TeamName = ((team, none), st3) →
      reassignCandidates team.Members pr ≠ [] →
      ∃ newUserID : String,
        selectRandomReviewers s.random (reassignCandidates team.Members pr) 1
          = some [newUserID] ∧
        ∀ (updated : PullRequest) (e : GoError) (st4 : σ),
          s.prRepo.UpdatePullRequest
              (s.prRepo.ReviewerSlotWrite st3 prID (pr.AssignedReviewers.indexOf oldUserID)
                newUserID)
              { pr with AssignedReviewers :=
                  (pr.AssignedReviewers.set (pr.AssignedReviewers.indexOf oldUserID)
                    newUserID) } = ((updated, some e), st4) →
          ReassignReviewer s st prID oldUserID
            = some ⟨(PullRequest.zero, ""), some e, st4,
                [Call.GetPullRequestByID prID, Call.GetUserByID oldUserID,
                  Call.GetTeamByName oldReviewer.TeamName,
                  Call.UpdatePullRequest
                    { pr with AssignedReviewers :=
                        (pr.AssignedReviewers.set (pr.AssignedReviewers.indexOf oldUserID)
                          newUserID) }]⟩) := by
  refine ⟨?_, ?_, ?_, ?_, ?_, ?_, ?_, ?_, ?_⟩
  · intro now st prID prName authorID author e st1 hu
    exact CreateAndAssignReviewers_userError_run s now st prID prName authorID author e st1 hu
  · intro now st prID prName authorID author st1 team e st2 hu ht
    exact CreateAndAssignReviewers_teamError_run s now st prID prName authorID author st1 hu
      team e st2 ht
  · intro now st prID prName authorID author st1 team st2 hu ht
    obtain ⟨reviewers, hsel, -⟩ :=
      selectRandomReviewers_returns s.random (createCandidates team.Members authorID) 2
        (by decide)
    refine ⟨reviewers, hsel, ?_⟩
    intro pr e st3 hc
    exact CreateAndAssignReviewers_run s now st prID prName authorID author st1 team st2
      reviewers hu ht hsel pr (some e) st3 hc
  · intro now st prID pr e st1 hg
    exact MergePullRequest_getError_run s now st prID pr e st1 hg
  · intro now st prID pr st1 updated e st2 hg hs hupd
    exact MergePullRequest_open_run s now st prID pr st1 hg hs updated (some e) st2 hupd
  · intro st prID oldUserID pr e st1 hg
    exact ReassignReviewer_getError_run s st prID oldUserID pr e st1 hg
  · intro st prID oldUserID pr st1 oldReviewer e st2 hg hs hin hu
    exact ReassignReviewer_userError_run s st prID oldUserID pr st1 hg hs hin oldReviewer e st2 hu
  · intro st prID oldUserID pr st1 oldReviewer st2 team e st3 hg hs hin hu ht
    exact ReassignReviewer_teamError_run s st prID oldUserID pr st1 hg hs hin oldReviewer st2 hu
      team e st3 ht
  · intro st prID oldUserID pr st1 oldReviewer st2 team st3 hg hs hin hu ht hc
    obtain ⟨newUserID, -, hsel, hrun⟩ :=
      ReassignReviewer_update_run s st prID oldUserID pr st1 hg hs hin oldReviewer st2 hu team
        st3 ht hc
    refine ⟨newUserID, hsel, ?_⟩
    intro updated e st4 hupd
    rw [hrun updated (some e) st4 hupd]
    simp

theorem store_errors_propagate_witness :
    CreateAndAssignReviewers svc 20 store0 "pr-9" "N" "u0"
      = some ⟨PullRequest.zero, some (notFound "user not found"), store0,
          [Call.GetUserByID "u0"]⟩ ∧
    CreateAndAssignReviewers failingSvc 20 store0 "pr-9" "N" "u1"
      = some ⟨createdPR, some (GoError.other "create failed"), store0,
          [Call.GetUserByID "u1", Call.GetTeamByName "backend",
            Call.CreatePullRequest createdPR]⟩ ∧
    MergePullRequest svc 30 store0 "pr-0"
      = ⟨PullRequest.zero, some (notFound "pull request not found"), store0,
          [Call.GetPullRequestByID "pr-0"]⟩ ∧
    MergePullRequest failingSvc 30 store0 "pr-1"
      = ⟨{ openPR with Status := StatusMerged, MergedAt := some 30 },
          some (GoError.other "update failed"), store0,
          [Call.GetPullRequestByID "pr-1",
            Call.UpdatePullRequest { openPR with Status := StatusMerged, MergedAt := some 30 }]⟩ ∧
    ReassignReviewer svc store0 "pr-0" "u2"
      = some ⟨(PullRequest.zero, ""), some (notFound "pull request not found"), store0,
          [Call.GetPullRequestByID "pr-0"]⟩ ∧
    ReassignReviewer sharingSvc store0 "pr-1" "u2"
      = some ⟨(PullRequest.zero, ""), some (GoError.other "update failed"), store1,
          [Call.GetPullRequestByID "pr-1", Call.GetUserByID "u2", Call.GetTeamByName "backend",
            Call.UpdatePullRequest reassignedPR]⟩ := by
  refine ⟨(store_errors_propagate svc).1 20 store0 "pr-9" "N" "u0" zeroUser
      (notFound "user not found") store0 (by decide), ?_,
    (store_errors_propagate svc).2.2.2.1 30 store0 "pr-0" PullRequest.zero
      (notFound "pull request not found") store0 (by decide),
    (store_errors_propagate failingSvc).2.2.2.2.1 30 store0 "pr-1" openPR store0
      { openPR with Status := StatusMerged, MergedAt := some 30 }
      (GoError.other "update failed") store0 (by decide) (by decide) (by decide),
    (store_errors_propagate svc).2.2.2.2.2.1 store0 "pr-0" "u2" PullRequest.zero
      (notFound "pull request not found") store0 (by decide), ?_⟩
  · obtain ⟨reviewers, hsel, hrun⟩ :=
      (store_errors_propagate failingSvc).2.2.1 20 store0 "pr-9" "N" "u1"
        ⟨"u1", "", "backend", true⟩ store0 backend store0 (by decide) (by decide)
    have hrev : reviewers = ["u2", "u3"] := by
      have h0 : selectRandomReviewers failingSvc.random (createCandidates backend.Members "u1") 2
          = some ["u2", "u3"] := by decide
      rw [h0, Option.some.injEq] at hsel
      exact hsel.symm
    subst hrev
    exact hrun createdPR (GoError.other "create failed") store0 (by decide)
  · obtain ⟨newUserID, hsel, hrun⟩ :=
      (store_errors_propagate sharingSvc).2.2.2.2.2.2.2.2 store0 "pr-1" "u2" openPR store0
        ⟨"u2", "", "backend", true⟩ store0 backend store0 (by decide) (by decide) (by decide)
        (by decide) (by decide) (by decide)
    have hnew : newUserID = "u5" := by
      have h0 : selectRandomReviewers sharingSvc.random (reassignCandidates backend.Members openPR)
          1 = some ["u5"] := by decide
      rw [h0, Option.some.injEq] at hsel
      exact (List.cons.inj hsel).1.symm
    subst hnew
    exact hrun PullRequest.zero (GoError.other "update failed") store1 (by decide)

/-! ## handleServiceError -/

/-- C16. For every business error, `handleServiceError` answers 404 when the code is
NOT_FOUND and 409 when the code is PR_EXISTS, PR_MERGED, NOT_ASSIGNED, NO_CANDIDATE or
TEAM_EXISTS, and the body it sends carries the code and the message of the error as they
are. -/
theorem handleServiceError_business (e : BusinessError) :
    (e.Code = ErrNotFound → (handleServiceError (GoError.business e)).status = 404) ∧
    (e.Code = ErrPRExists ∨ e.Code = ErrPRMerged ∨ e.Code = ErrNotAssigned ∨
        e.Code = ErrNoCandidate ∨ e.Code = ErrTeamExists →
      (handleServiceError (GoError.business e)).status = 409) ∧
    (handleServiceError (GoError.business e)).body
      = Body.json { Code := e.Code, Message := e.Message } := by
  refine ⟨?_, ?_, rfl⟩
  · intro h
    simp [handleServiceError, sendJSONResponse, h, StatusNotFound]
  · intro h
    have hne : e.Code ≠ ErrNotFound := by
      rcases h with h | h | h | h | h <;> rw [h] <;> decide
    simp [handleServiceError, sendJSONResponse, h, hne, StatusConflict]

theorem handleServiceError_business_witness :
    (handleServiceError (GoError.business ⟨ErrNotFound, "User u0 not found"⟩)).status = 404 ∧
    (handleServiceError
      (GoError.business ⟨ErrNoCandidate, "no active replacement candidate in team"⟩)).status
        = 409 ∧
    (handleServiceError (GoError.business ⟨ErrNotFound, "User u0 not found"⟩)).body
      = Body.json { Code := ErrNotFound, Message := "User u0 not found" } :=
  ⟨(handleServiceError_business ⟨ErrNotFound, "User u0 not found"⟩).1 rfl,
    (handleServiceError_business
      ⟨ErrNoCandidate, "no active replacement candidate in team"⟩).2.1
      (Or.inr (Or.inr (Or.inr (Or.inl rfl)))),
    (handleServiceError_business ⟨ErrNotFound, "User u0 not found"⟩).2.2⟩

/-- C17, as stated, fails: a business error whose code is none of the six named ones,
here one that `MergePullRequest` returns from the store, is answered with 400, not 500,
and with a body that carries its code and its message. -/
theorem handleServiceError_unnamed_code :
    (MergePullRequest busySvc 30 store0 "pr-1").err
      = some (GoError.business ⟨"STORE_BUSY", "pull_requests is locked"⟩) ∧
    "STORE_BUSY" ∉ [ErrNotFound, ErrPRExists, ErrPRMerged, ErrNotAssigned, ErrNoCandidate,
      ErrTeamExists] ∧
    handleServiceError (GoError.business ⟨"STORE_BUSY", "pull_requests is locked"⟩)
      = { status := 400, contentType := "application/json",
          body := Body.json { Code := "STORE_BUSY", Message := "pull_requests is locked" } } ∧
    (handleServiceError (GoError.business ⟨"STORE_BUSY", "pull_requests is locked"⟩)).status
      ≠ 500 := by
  decide

/-- C17, amended. Every error that is not a business error is answered with 500 and the
fixed text "Internal Server Error", whatever the error says, so neither a code nor the
message is exposed; a business error whose code is none of the six named ones is answered
with 400 and a body that carries its code and its message. -/
theorem handleServiceError_other :
    (∀ text : String, handleServiceError (GoError.other text)
      = { status := 500, contentType := "text/plain; charset=utf-8",
          body := Body.plain "Internal Server Error" }) ∧
    (∀ e : BusinessError,
      e.Code ∉ [ErrNotFound, ErrPRExists, ErrPRMerged, ErrNotAssigned, ErrNoCandidate,
        ErrTeamExists] →
      (handleServiceError (GoError.business e)).status = 400 ∧
      (handleServiceError (GoError.business e)).body
        = Body.json { Code := e.Code, Message := e.Message }) := by
  refine ⟨fun _ => rfl, ?_⟩
  intro e he
  simp only [List.mem_cons, List.mem_singleton, List.not_mem_nil, or_false, not_or] at he
  obtain ⟨h1, h2, h3, h4, h5, h6⟩ := he
  refine ⟨?_, rfl⟩
  simp [handleServiceError, sendJSONResponse, h1, h2, h3, h4, h5, h6, StatusBadRequest]

theorem handleServiceError_other_witness :
    handleServiceError (GoError.other "error getting PR from DB: connection refused")
      = { status := 500, contentType := "text/plain; charset=utf-8",
          body := Body.plain "Internal Server Error" } ∧
    (handleServiceError (GoError.business ⟨"STORE_BUSY", "pull_requests is locked"⟩)).status
      = 400 ∧
    (handleServiceError (GoError.business ⟨"STORE_BUSY", "pull_requests is locked"⟩)).body
      = Body.json { Code := "STORE_BUSY", Message := "pull_requests is locked" } :=
  ⟨handleServiceError_other.1 "error getting PR from DB: connection refused",
    handleServiceError_other.2 ⟨"STORE_BUSY", "pull_requests is locked"⟩ (by decide)⟩

/-! ## GetReviewPRsByUserID -/

/-- C18. `GetReviewPRsByUserID` first resolves the user. If that lookup fails it returns
the lookup's error and no list, and does not query the pull-request store; otherwise it
returns exactly what the store's `GetPRsByReviewerID` returns for the same user id, list
and error alike. -/
theorem GetReviewPRsByUserID_spec {σ : Type} (s : UserServiceImpl σ) (st : σ)
    (userID : String) :
    (∀ (u : User) (e : GoError) (st1 : σ),
      s.teamRepo.GetUserByID st userID = ((u, some e), st1) →
      GetReviewPRsByUserID s st userID = ⟨[], some e, st1, [Call.GetUserByID userID]⟩) ∧
    (∀ (u : User) (st1 : σ) (prs : List PullRequestShort) (err : Option GoError) (st2 : σ),
      s.teamRepo.GetUserByID st userID = ((u, none), st1) →
      s.prRepo.GetPRsByReviewerID st1 userID = ((prs, err), st2) →
      GetReviewPRsByUserID s st userID
        = ⟨prs, err, st2, [Call.GetUserByID userID, Call.GetPRsByReviewerID userID]⟩) := by
  constructor
  · intro u e st1 hu
    simp only [GetReviewPRsByUserID, hu]
  · intro u st1 prs err st2 hu hl
    simp only [GetReviewPRsByUserID, hu, hl]

theorem GetReviewPRsByUserID_spec_witness :
    GetReviewPRsByUserID userSvc store0 "u0"
      = ⟨[], some (notFound "user not found"), store0, [Call.GetUserByID "u0"]⟩ ∧
    GetReviewPRsByUserID userSvc store0 "u5"
      = ⟨[⟨"pr-3", "F", "u1", StatusOpen⟩], none, store0,
          [Call.GetUserByID "u5", Call.GetPRsByReviewerID "u5"]⟩ :=
  ⟨(GetReviewPRsByUserID_spec userSvc store0 "u0").1 zeroUser (notFound "user not found")
      store0 (by decide),
    (GetReviewPRsByUserID_spec userSvc store0 "u5").2 ⟨"u5", "", "backend", true⟩ store0
      [⟨"pr-3", "F", "u1", StatusOpen⟩] none store0 (by decide) (by decide)⟩

/-! ## Index accesses -/

/-- C20. The unchecked index accesses are in range. `ReassignReviewer` returns on every
input, so neither access panics: where the candidate list is not empty, the selection of
one returns a list of length one and element 0 exists; where the search has found the old
reviewer, the index it leaves is at least 0 and below the length of the reviewer list, so
the assignment at that index succeeds; and for every count that is not negative the slice
in `selectRandomReviewers` is in range. -/
theorem index_accesses_in_range {σ : Type} (s : PRServiceImpl σ) :
    (∀ (st : σ) (prID oldUserID : String), ∃ run, ReassignReviewer s st prID oldUserID = some run) ∧
    (∀ candidates : List String, candidates.length ≠ 0 →
      ∃ selected, selectRandomReviewers s.random candidates 1 = some selected ∧
        selected.length = 1 ∧ ∃ id, selected[0]? = some id) ∧
    (∀ (oldUserID : String) (reviewers : List String),
      oldReviewerIndexFrom oldUserID reviewers 0 ≠ -1 →
      0 ≤ oldReviewerIndexFrom oldUserID reviewers 0 ∧
      oldReviewerIndexFrom oldUserID reviewers 0 < (reviewers.length : Int) ∧
      ∀ id, ∃ l, assignAt reviewers (oldReviewerIndexFrom oldUserID reviewers 0) id = some l) ∧
    (∀ (random : RandSource) (candidates : List String) (count : Int), 0 ≤ count →
      ∃ r, selectRandomReviewers random candidates count = some r ∧ r.length ≤ candidates.length) := by
  refine ⟨?_, ?_, ?_, ?_⟩
  · intro st prID oldUserID
    obtain ⟨run, hrun, -⟩ := ReassignReviewer_total s st prID oldUserID
    exact ⟨run, hrun⟩
  · intro candidates hlen
    have hne : candidates ≠ [] := fun h => hlen (by rw [h]; rfl)
    obtain ⟨id, -, hsel⟩ := selectRandomReviewers_one s.random candidates hne
    exact ⟨[id], hsel, rfl, id, rfl⟩
  · intro oldUserID reviewers hidx
    have hin : oldUserID ∈ reviewers := by
      by_contra hn
      exact hidx (oldReviewerIndexFrom_of_not_mem _ _ hn)
    have hlt : reviewers.indexOf oldUserID < reviewers.length := List.indexOf_lt_length.mpr hin
    rw [oldReviewerIndexFrom_of_mem _ _ hin]
    refine ⟨by omega, by omega, ?_⟩
    intro id
    exact ⟨_, assignAt_indexOf reviewers oldUserID id hin⟩
  · intro random candidates count hcount
    obtain ⟨r, hsel, hlen, -⟩ := selectRandomReviewers_returns random candidates count hcount
    exact ⟨r, hsel, by rw [hlen]; omega⟩

theorem index_accesses_in_range_witness :
    (∃ run, ReassignReviewer svc store0 "pr-1" "u2" = some run) ∧
    (∃ selected, selectRandomReviewers svc.random ["u5"] 1 = some selected ∧
        selected.length = 1 ∧ ∃ id, selected[0]? = some id) ∧
    ((0 : Int) ≤ oldReviewerIndexFrom "u3" ["u2", "u3"] 0 ∧
      oldReviewerIndexFrom "u3" ["u2", "u3"] 0 < ((["u2", "u3"] : List String).length : Int) ∧
      ∀ id, ∃ l, assignAt ["u2", "u3"] (oldReviewerIndexFrom "u3" ["u2", "u3"] 0) id = some l) ∧
    (∃ r, selectRandomReviewers RandSource.id ["u2", "u3", "u5"] 7 = some r ∧
      r.length ≤ ["u2", "u3", "u5"].length) :=
  ⟨(index_accesses_in_range svc).1 store0 "pr-1" "u2",
    (index_accesses_in_range svc).2.1 ["u5"] (by decide),
    (index_accesses_in_range svc).2.2.1 "u3" ["u2", "u3"] (by decide),
    (index_accesses_in_range svc).2.2.2 RandSource.id ["u2", "u3", "u5"] 7 (by decide)⟩

end Backend
